import Mathlib

/-!
# konstraint `create` command

A shallow embedding of `internal/commands/create.go`:
`getMatchingLibraries`, `getConstraintTemplate`, `getConstraint`,
`getLibraryPath` and `runCreateCommand`, with the facts proved about them.

Go strings are `String`, slices are `List`, `error` values are their messages.
Functions of other packages (`rego.GetFiles`, `rego.GetKindFromPath`,
`yaml.Marshal`, the `viper` flags, ...) are fields of `Env`; the standard
library pieces the command relies on (`filepath.Walk`, `filepath.Dir`,
`filepath.Join`, the `unstructured` setters) are modelled below.
-/

namespace Konstraint

/-! ## Data model -/

/-- The fields of `rego.File` that the command reads. -/
structure File where
  FilePath : String
  Contents : String
  PackageName : String
  ImportPackages : List String
  Comments : List String
  deriving DecidableEq, Repr

/-- One `rego.KindMatcher`: an API group and a kind. -/
structure KindMatcher where
  APIGroup : String
  Kind : String
  deriving DecidableEq, Repr

/-- The `rego.Matchers` value returned by `GetMatchersFromComments`. -/
structure Matchers where
  KindMatchers : List KindMatcher
  deriving DecidableEq, Repr

/-- One entry of `ConstraintTemplateSpec.Targets`. -/
structure Target where
  Target : String
  Libs : List String
  Rego : String
  deriving DecidableEq, Repr

/-- The fields of `v1beta1.ConstraintTemplate` that `getConstraintTemplate` fills in. -/
structure ConstraintTemplate where
  APIVersion : String
  Kind : String
  Name : String
  CRDKind : String
  Targets : List Target
  deriving DecidableEq, Repr

/-- A JSON-like `interface{}` value as stored in an `unstructured.Unstructured`:
a string, a `[]interface{}` or a `map[string]interface{}` (as an association
list with one entry per key). -/
inductive Val where
  | str (s : String)
  | slice (xs : List Val)
  | map (kvs : List (String × Val))
  deriving Repr

/-- An `unstructured.Unstructured`: its `Object` map (a nil map reads as the empty one). -/
structure Unstructured where
  Object : List (String × Val)
  deriving Repr

/-- What `os.Lstat` reports for a visited entry: `Name()` and `IsDir()`. -/
structure FileInfo where
  Name : String
  IsDir : Bool
  deriving DecidableEq, Repr

/-- A file-system tree as `filepath.Walk` sees it. The children of a directory are
listed in the order `Walk` visits them (lexical); `broken` is an entry whose
`Lstat` fails, and a directory carries the error of reading its entries, if any. -/
inductive FsNode where
  | file (name : String)
  | broken (name : String) (err : String)
  | dir (name : String) (readErr : Option String) (children : List FsNode)
  deriving Repr

/-- The value a `filepath.WalkFunc` returns: `nil`, `filepath.SkipDir` or another error. -/
inductive WalkRet where
  | nil
  | skipDir
  | err (msg : String)
  deriving DecidableEq, Repr

/-- What a run has done to the file system so far: the directories `os.MkdirAll` has
created and the log of the `ioutil.WriteFile` calls that succeeded, oldest first. -/
structure World where
  dirs : List String
  writes : List (String × String)
  deriving DecidableEq, Repr

/-- The collaborators of the command: functions of other packages, the two `viper`
flags and the outcome of the operating-system calls. -/
structure Env where
  /-- The helper `getRegoWithoutComments`. -/
  getRegoWithoutComments : String → String
  /-- The helper `GetKindFromPath`. -/
  GetKindFromPath : String → String
  /-- The helper `GetMatchersFromComments`. -/
  GetMatchersFromComments : List String → Matchers
  /-- The helper `contains`. -/
  contains : List String → String → Bool
  /-- The function `strings.ToLower`. -/
  toLower : String → String
  /-- The function `rego.GetFilesWithRule`. -/
  GetFilesWithRule : String → String → Except String (List File)
  /-- The function `rego.GetFiles`. -/
  GetFiles : String → Except String (List File)
  /-- The tree `filepath.Walk` finds at a path. -/
  fsAt : String → FsNode
  /-- The flag `viper.GetString("output")`. -/
  output : String
  /-- The flag `viper.GetBool("dryrun")`. -/
  dryrun : Bool
  /-- The call `yaml.Marshal` on a constraint template. -/
  marshalTemplate : ConstraintTemplate → Except String String
  /-- The call `yaml.Marshal` on a constraint. -/
  marshalConstraint : Unstructured → Except String String
  /-- Whether `os.Stat` on a path fails with an error for which `os.IsNotExist` holds,
  given what the run has done so far. -/
  statNotExist : World → String → Bool
  /-- The error of `os.MkdirAll` on a path, if it fails. -/
  mkdirAll : String → Option String
  /-- The error of `ioutil.WriteFile` on a path, if it fails. -/
  writeFile : String → Option String

/-! ## `getMatchingLibraries` -/

/-- The function `getMatchingLibraries`: for each import, in order, the contents of every
library whose package name equals it. -/
def getMatchingLibraries (policy : File) (libraries : List File) : List String :=
  policy.ImportPackages.foldl
    (fun libs importPackage =>
      libraries.foldl
        (fun libs library =>
          if importPackage = library.PackageName then libs ++ [library.Contents] else libs)
        libs)
    []

/-! ## `path/filepath` (Unix) -/

/-- One step of `filepath.Clean` over the path elements: empty and `.` elements are
dropped, `..` removes the element before it (or is kept at the start of a relative
path, or dropped at the root), any other element is kept. -/
def cleanStep (rooted : Bool) (st : List (List Char)) (c : List Char) : List (List Char) :=
  if c = [] ∨ c = ['.'] then st
  else if c = ['.', '.'] then
    match st.getLast? with
    | some t => if t = ['.', '.'] then (if rooted then st else st ++ [c]) else st.dropLast
    | none => if rooted then st else st ++ [c]
  else st ++ [c]

/-- The elements of a path, joined by `/`, after the leading `/` of a rooted path;
a relative path without elements is `.`. -/
def renderPath (rooted : Bool) (st : List (List Char)) : List Char :=
  if rooted then '/' :: [ '/' ].intercalate st
  else if st = [] then ['.'] else [ '/' ].intercalate st

/-- The function `filepath.Clean` on the characters of a path. -/
def cleanChars (p : List Char) : List Char :=
  renderPath (p.head? == some '/') ((p.splitOn '/').foldl (cleanStep (p.head? == some '/')) [])

/-- The function `filepath.Clean`. -/
def filepathClean (p : String) : String :=
  String.mk (cleanChars p.data)

/-- The function `filepath.Dir`: the cleaned path up to the last separator. -/
def filepathDir (p : String) : String :=
  String.mk (cleanChars (p.data.reverse.dropWhile (fun c => c != '/')).reverse)

/-- The function `filepath.Join`: the elements from the first non-empty one on, joined
by `/` and cleaned; the empty string when every element is empty. -/
def filepathJoin (elem : List String) : String :=
  match elem.dropWhile (fun e => e == "") with
  | [] => ""
  | es => String.mk (cleanChars ([ '/' ].intercalate (es.map String.data)))

/-! ## `filepath.Walk` -/

/-- The name `Lstat` reports for a node. -/
def FsNode.name : FsNode → String
  | .file n => n
  | .broken n _ => n
  | .dir n _ _ => n

/-- Whether a node is a directory. -/
def FsNode.isDir : FsNode → Bool
  | .dir _ _ _ => true
  | _ => false

mutual
/-- The recursive descent `walk` of `path/filepath`: the callback is called on the node
(for a directory, with the error of reading its entries); a directory is entered
when both that error and the result of the callback are nil. -/
def walk {σ : Type} (fn : σ → String → Option FileInfo → Option String → σ × WalkRet)
    (path : String) : FsNode → σ → σ × WalkRet
  | .file name, s => fn s path (some ⟨name, false⟩) none
  | .broken _ e, s => fn s path none (some e)
  | .dir name readErr children, s =>
    match fn s path (some ⟨name, true⟩) readErr with
    | (s1, err1) =>
      if readErr.isSome || err1 != WalkRet.nil then (s1, err1)
      else walkChildren fn path children s1
/-- The loop of `walk` over the entries of a directory. -/
def walkChildren {σ : Type} (fn : σ → String → Option FileInfo → Option String → σ × WalkRet)
    (path : String) : List FsNode → σ → σ × WalkRet
  | [], s => (s, WalkRet.nil)
  | .broken name e :: rest, s =>
    match fn s (filepathJoin [path, name]) none (some e) with
    | (s1, err) =>
      if err != WalkRet.nil && err != WalkRet.skipDir then (s1, err)
      else walkChildren fn path rest s1
  | .file name :: rest, s =>
    match walk fn (filepathJoin [path, name]) (.file name) s with
    | (s1, err) =>
      if err != WalkRet.nil then (s1, err)
      else walkChildren fn path rest s1
  | .dir name readErr children :: rest, s =>
    match walk fn (filepathJoin [path, name]) (.dir name readErr children) s with
    | (s1, err) =>
      if err != WalkRet.nil && err != WalkRet.skipDir then (s1, err)
      else walkChildren fn path rest s1
end

/-- The function `filepath.Walk`: a `SkipDir` that reaches the top is not an error. -/
def filepathWalk {σ : Type} (fn : σ → String → Option FileInfo → Option String → σ × WalkRet)
    (root : String) (tree : FsNode) (s : σ) : σ × Option String :=
  match walk fn root tree s with
  | (s1, WalkRet.err e) => (s1, some e)
  | (s1, _) => (s1, none)

/-! ## `getLibraryPath` -/

/-- The slice `libraryFolderNames`. -/
def libraryFolderNames : List String := ["lib", "libs", "util", "utils"]

/-- The callback `getLibraryPath` hands to `filepath.Walk`; the state is the captured
variable `libraryPath`. -/
def libraryWalkFn (env : Env) (libraryPath : String) (currentFilePath : String)
    (fileInfo : Option FileInfo) (err : Option String) : String × WalkRet :=
  match err, fileInfo with
  | some e, _ => (libraryPath, WalkRet.err ("walk path: " ++ e))
  | none, none => (libraryPath, WalkRet.nil)
  | none, some info =>
    if info.IsDir && info.Name == ".git" then (libraryPath, WalkRet.skipDir)
    else if info.IsDir && env.contains libraryFolderNames info.Name then
      (currentFilePath, WalkRet.nil)
    else (libraryPath, WalkRet.nil)

/-- The function `getLibraryPath`. -/
def getLibraryPath (env : Env) (path : String) : Except String String :=
  match filepathWalk (libraryWalkFn env) path (env.fsAt path) "" with
  | (_, some e) => .error e
  | (libraryPath, none) => .ok libraryPath

/-! ## `unstructured` -/

/-- The read `m[key]` of a Go map. -/
def mapGet (m : List (String × Val)) (key : String) : Option Val :=
  match m with
  | [] => none
  | (k, v) :: rest => if k = key then some v else mapGet rest key

/-- The assignment `m[key] = v` of a Go map. -/
def mapSet (m : List (String × Val)) (key : String) (v : Val) : List (String × Val) :=
  match m with
  | [] => [(key, v)]
  | (k, x) :: rest => if k = key then (k, v) :: rest else (k, x) :: mapSet rest key v

/-- The call `delete(m, key)` of a Go map. -/
def mapDelete (m : List (String × Val)) (key : String) : List (String × Val) :=
  m.filter (fun kv => kv.1 != key)

/-- The function `jsonPath` of `unstructured`. -/
def jsonPath (fields : List String) : String :=
  "." ++ ".".intercalate fields

/-- The function `setNestedFieldNoCopy`, behind `unstructured.SetNestedField` and
`unstructured.SetNestedSlice`: walk down the maps named by all fields but the last,
creating the missing ones, and set the last field; an error when a field on the
way holds something that is not a map. `done` holds the fields already passed. -/
def setNestedFieldNoCopy (done : List String) (obj : List (String × Val)) (value : Val) :
    List String → Except String (List (String × Val))
  | [] => .error "index out of range"
  | [field] => .ok (mapSet obj field value)
  | field :: next :: more =>
    match mapGet obj field with
    | some (Val.map valMap) =>
      match setNestedFieldNoCopy (done ++ [field]) valMap value (next :: more) with
      | .ok m => .ok (mapSet obj field (Val.map m))
      | .error e => .error e
    | some _ =>
      .error ("value cannot be set because " ++ jsonPath (done ++ [field])
        ++ " is not a map[string]interface\x7b\x7d")
    | none =>
      match setNestedFieldNoCopy (done ++ [field]) [] value (next :: more) with
      | .ok m => .ok (mapSet obj field (Val.map m))
      | .error e => .error e

/-- The function `unstructured.SetNestedField`. -/
def SetNestedField (obj : List (String × Val)) (value : Val) (fields : List String) :
    Except String (List (String × Val)) :=
  setNestedFieldNoCopy [] obj value fields

/-- The function `unstructured.SetNestedSlice`. -/
def SetNestedSlice (obj : List (String × Val)) (value : List Val) (fields : List String) :
    Except String (List (String × Val)) :=
  setNestedFieldNoCopy [] obj (Val.slice value) fields

/-- The function `unstructured.RemoveNestedField`. -/
def RemoveNestedField (obj : List (String × Val)) : List String → List (String × Val)
  | [] => obj
  | [field] => mapDelete obj field
  | field :: next :: more =>
    match mapGet obj field with
    | some (Val.map x) => mapSet obj field (Val.map (RemoveNestedField x (next :: more)))
    | _ => obj

/-- The method `setNestedField` of `Unstructured`, which drops the error. -/
def Unstructured.setNestedField (u : Unstructured) (value : Val) (fields : List String) :
    Unstructured :=
  match SetNestedField u.Object value fields with
  | .ok m => ⟨m⟩
  | .error _ => u

/-- The method `SetName`. -/
def Unstructured.SetName (u : Unstructured) (name : String) : Unstructured :=
  if name.length = 0 then ⟨RemoveNestedField u.Object ["metadata", "name"]⟩
  else u.setNestedField (Val.str name) ["metadata", "name"]

/-- The method `SetGroupVersionKind`: `SetAPIVersion` of `group/version` (the version
alone for the empty group), then `SetKind`. -/
def Unstructured.SetGroupVersionKind (u : Unstructured) (group version kind : String) :
    Unstructured :=
  let apiVersion := if group.length > 0 then group ++ "/" ++ version else version
  (u.setNestedField (Val.str apiVersion) ["apiVersion"]).setNestedField (Val.str kind) ["kind"]

/-- The read of a nested field, as `unstructured.NestedFieldNoCopy` does it. -/
def nestedField (obj : List (String × Val)) : List String → Option Val
  | [] => some (Val.map obj)
  | [field] => mapGet obj field
  | field :: next :: more =>
    match mapGet obj field with
    | some (Val.map m) => nestedField m (next :: more)
    | _ => none

/-! ## `getConstraintTemplate` and `getConstraint` -/

/-- The function `getConstraintTemplate`. -/
def getConstraintTemplate (env : Env) (policy : File) (libraries : List String) :
    ConstraintTemplate :=
  let kind := env.GetKindFromPath policy.FilePath
  { APIVersion := "templates.gatekeeper.sh/v1beta1"
    Kind := "ConstraintTemplate"
    Name := env.toLower kind
    CRDKind := kind
    Targets := [
      { Target := "admission.k8s.gatekeeper.sh"
        Libs := libraries
        Rego := env.getRegoWithoutComments policy.Contents }] }

/-- The first loop of `getConstraint`: the kind of every matcher, appended in order. -/
def collectKinds (kindMatchers : List KindMatcher) : List String :=
  kindMatchers.foldl (fun kinds kindMatcher => kinds ++ [kindMatcher.Kind]) []

/-- The second loop of `getConstraint`: the API group of every matcher, with `core`
replaced by the empty string, appended unless it is in the list already. -/
def collectAPIGroups (kindMatchers : List KindMatcher) : List String :=
  kindMatchers.foldl
    (fun apiGroups kindMatcher =>
      let apiGroup := if kindMatcher.APIGroup = "core" then "" else kindMatcher.APIGroup
      let isAdded := apiGroups.foldl
        (fun found addedGroup => if apiGroup = addedGroup then true else found) false
      if !isAdded then apiGroups ++ [apiGroup] else apiGroups)
    []

/-- The function `getConstraint`. -/
def getConstraint (env : Env) (policy : File) : Except String Unstructured :=
  let kind := env.GetKindFromPath policy.FilePath
  let constraint : Unstructured := ⟨[]⟩
  let constraint := constraint.SetName (env.toLower kind)
  let constraint := constraint.SetGroupVersionKind "constraints.gatekeeper.sh" "v1beta1" kind
  let dryrunSet : Except String Unstructured :=
    if env.dryrun then
      match SetNestedField constraint.Object (Val.str "dryrun") ["spec", "enforcementAction"] with
      | .error e => .error ("set constraint dryrun: " ++ e)
      | .ok m => .ok ⟨m⟩
    else .ok constraint
  match dryrunSet with
  | .error e => .error e
  | .ok constraint =>
    let matchers := env.GetMatchersFromComments policy.Comments
    if matchers.KindMatchers.length = 0 then .ok constraint
    else
      let kinds := collectKinds matchers.KindMatchers
      let apiGroups := collectAPIGroups matchers.KindMatchers
      let constraintMatcher : List (String × Val) :=
        [("apiGroups", Val.slice (apiGroups.map Val.str)),
         ("kinds", Val.slice (kinds.map Val.str))]
      match SetNestedSlice constraint.Object [Val.map constraintMatcher]
          ["spec", "match", "kinds"] with
      | .error e => .error ("set constraint matchers: " ++ e)
      | .ok m => .ok ⟨m⟩

/-! ## `runCreateCommand` -/

/-- The names and the directory `runCreateCommand` picks for a policy: the template
file name, the constraint file name and the output directory. -/
def outputNames (env : Env) (policy : File) : String × String × String :=
  let policyDir := filepathDir policy.FilePath
  if env.output = "" then ("template.yaml", "constraint.yaml", policyDir)
  else
    ("template_" ++ env.GetKindFromPath policy.FilePath ++ ".yaml",
     "constraint_" ++ env.GetKindFromPath policy.FilePath ++ ".yaml",
     env.output)

/-- The step of the loop that creates the output directory when `os.Stat` reports that
it does not exist; for any other outcome of `os.Stat` nothing is done. -/
def makeOutputDir (env : Env) (outputDir : String) (w : World) : Option String × World :=
  if env.statNotExist w outputDir then
    match env.mkdirAll outputDir with
    | some e => (some ("create output directory: " ++ e), w)
    | none => (none, { w with dirs := w.dirs ++ [outputDir] })
  else (none, w)

/-- The step of the loop that builds, marshals and writes the constraint template. -/
def writeTemplate (env : Env) (policy : File) (matchingLibraries : List String)
    (outputDir templateFileName : String) (w : World) : Option String × World :=
  let constraintTemplate := getConstraintTemplate env policy matchingLibraries
  match env.marshalTemplate constraintTemplate with
  | .error e => (some ("marshal constrainttemplate: " ++ e), w)
  | .ok constraintTemplateBytes =>
    match env.writeFile (filepathJoin [outputDir, templateFileName]) with
    | some e => (some ("writing template: " ++ e), w)
    | none =>
      (none, { w with writes := w.writes ++
        [(filepathJoin [outputDir, templateFileName], constraintTemplateBytes)] })

/-- The step of the loop that builds, marshals and writes the constraint. -/
def writeConstraint (env : Env) (policy : File) (outputDir constraintFileName : String)
    (w : World) : Option String × World :=
  match getConstraint env policy with
  | .error e => (some ("get constraint: " ++ e), w)
  | .ok constraint =>
    match env.marshalConstraint constraint with
    | .error e => (some ("marshal constraint: " ++ e), w)
    | .ok constraintBytes =>
      match env.writeFile (filepathJoin [outputDir, constraintFileName]) with
      | some e => (some ("writing constraint: " ++ e), w)
      | none =>
        (none, { w with writes := w.writes ++
          [(filepathJoin [outputDir, constraintFileName], constraintBytes)] })

/-- The body of the loop of `runCreateCommand` for one policy: the error it returns, if
any, and the files and directories after it. -/
def processPolicy (env : Env) (libraries : List File) (policy : File) (w : World) :
    Option String × World :=
  match outputNames env policy with
  | (templateFileName, constraintFileName, outputDir) =>
    let matchingLibraries := getMatchingLibraries policy libraries
    if matchingLibraries.length ≠ policy.ImportPackages.length then
      (some "missing imported libraries", w)
    else
      match makeOutputDir env outputDir w with
      | (some e, w1) => (some e, w1)
      | (none, w1) =>
        match writeTemplate env policy matchingLibraries outputDir templateFileName w1 with
        | (some e, w2) => (some e, w2)
        | (none, w2) => writeConstraint env policy outputDir constraintFileName w2

/-- The loop of `runCreateCommand` over the policies: it stops at the first error. -/
def processPolicies (env : Env) (libraries : List File) : List File → World → Option String × World
  | [], w => (none, w)
  | policy :: rest, w =>
    match processPolicy env libraries policy w with
    | (some e, w1) => (some e, w1)
    | (none, w1) => processPolicies env libraries rest w1

/-- The first loop of `runCreateCommand`: every library's contents without comments. -/
def stripLibraries (env : Env) (libraries : List File) : List File :=
  libraries.map (fun l => { l with Contents := env.getRegoWithoutComments l.Contents })

/-- The function `runCreateCommand`: the error it returns, if any, and the files and
directories after the run. -/
def runCreateCommand (env : Env) (path : String) (w : World) : Option String × World :=
  match env.GetFilesWithRule path "violation" with
  | .error e => (some ("get policies: " ++ e), w)
  | .ok policies =>
    match getLibraryPath env path with
    | .error e => (some ("get library path: " ++ e), w)
    | .ok libraryPath =>
      match env.GetFiles libraryPath with
      | .error e => (some ("get libraries: " ++ e), w)
      | .ok libraries => processPolicies env (stripLibraries env libraries) policies w

/-! ## Definitions used to state the properties -/

/-- Keep the first occurrence of every value. -/
def firstSeen : List String → List String
  | [] => []
  | x :: xs => x :: (firstSeen xs).filter (fun y => y != x)

/-- The API group of a matcher as `getConstraint` writes it: `core` becomes the empty
string. -/
def normGroup (m : KindMatcher) : String := if m.APIGroup = "core" then "" else m.APIGroup

/-- The object of a constraint before `spec` is touched. -/
def baseObject (name kind : String) : List (String × Val) :=
  (if name.length = 0 then [] else [("metadata", Val.map [("name", Val.str name)])])
    ++ [("apiVersion", Val.str "constraints.gatekeeper.sh/v1beta1"), ("kind", Val.str kind)]

/-- The block `getConstraint` stores under `spec.match.kinds` for the given matchers. -/
def matchBlock (ms : List KindMatcher) : List (String × Val) :=
  [("apiGroups", Val.slice ((collectAPIGroups ms).map Val.str)),
   ("kinds", Val.slice ((collectKinds ms).map Val.str))]

/-- The `spec` entries of a constraint. -/
def specEntries (dryrun : Bool) (ms : List KindMatcher) : List (String × Val) :=
  (if dryrun then [("enforcementAction", Val.str "dryrun")] else [])
    ++ (if ms.length = 0 then [] else
        [("match", Val.map [("kinds", Val.slice [Val.map (matchBlock ms)])])])

mutual
/-- The directories a walk of a node at `path` reaches, in traversal order, with their
names: the node itself and, recursively, its entries, without the directories named
`.git` and what lies below them. -/
def visibleDirs (path : String) : FsNode → List (String × String)
  | .file _ => []
  | .broken _ _ => []
  | .dir name _ children =>
    if name = ".git" then [] else (path, name) :: visibleDirsIn path children
/-- The directories a walk reaches below the entries of the directory at `path`. -/
def visibleDirsIn (path : String) : List FsNode → List (String × String)
  | [] => []
  | .file _ :: rest => visibleDirsIn path rest
  | .broken _ _ :: rest => visibleDirsIn path rest
  | .dir name readErr children :: rest =>
    visibleDirs (filepathJoin [path, name]) (.dir name readErr children) ++ visibleDirsIn path rest
end

mutual
/-- Whether a walk of the node meets no error: no entry whose `Lstat` fails and no
directory whose entries cannot be read, outside the directories named `.git` (which
are not entered). -/
def walkable : FsNode → Bool
  | .file _ => true
  | .broken _ _ => false
  | .dir name readErr children => readErr.isNone && (name == ".git" || walkableAll children)
/-- Whether a walk of the entries of a directory meets no error. -/
def walkableAll : List FsNode → Bool
  | [] => true
  | .file _ :: rest => walkableAll rest
  | .broken _ _ :: _ => false
  | .dir name readErr children :: rest => walkable (.dir name readErr children) && walkableAll rest
end

/-- The paths of the directories a walk reaches whose name `contains` finds among
`libraryFolderNames`, in traversal order. -/
def libraryDirs (env : Env) (path : String) (t : FsNode) : List String :=
  ((visibleDirs path t).filter (fun d => env.contains libraryFolderNames d.2)).map Prod.fst

/-- The same paths, below the entries of the directory at `path`. -/
def libraryDirsIn (env : Env) (path : String) (ts : List FsNode) : List String :=
  ((visibleDirsIn path ts).filter (fun d => env.contains libraryFolderNames d.2)).map Prod.fst

/-- The last element of a list, or `s` for the empty list. -/
def lastOr (s : String) (l : List String) : String := l.getLast?.getD s

/-- What the walk of a node returns when nothing fails. -/
def walkRetOf : FsNode → WalkRet
  | .dir name _ _ => if name = ".git" then WalkRet.skipDir else WalkRet.nil
  | _ => WalkRet.nil

/-- A path element that `Clean` keeps as it is. -/
def PlainElem (c : List Char) : Prop :=
  c ≠ [] ∧ '/' ∉ c ∧ c ≠ ['.'] ∧ c ≠ ['.', '.']

/-- The shape of the element stack of a cleaned path. -/
def GoodStack (rooted : Bool) (st : List (List Char)) : Prop :=
  ∃ k normal, st = List.replicate k ['.', '.'] ++ normal ∧ (∀ c ∈ normal, PlainElem c) ∧
    (rooted = true → k = 0)

/-- The path of the template file of a policy. -/
def templatePath (env : Env) (policy : File) : String :=
  filepathJoin [(outputNames env policy).2.2, (outputNames env policy).1]

/-- The path of the constraint file of a policy. -/
def constraintPath (env : Env) (policy : File) : String :=
  filepathJoin [(outputNames env policy).2.2, (outputNames env policy).2.1]

/-! ## Concrete inputs -/

/-- A stand-in for `GetKindFromPath` in the examples: the last element of the directory
of the path. -/
def exampleKind (path : String) : String :=
  String.mk (((filepathDir path).data.splitOn '/').getLast?.getD [])

/-- A stand-in for `getRegoWithoutComments` in the examples: the text before the
first `#`. -/
def exampleStrip (contents : String) : String :=
  String.mk (contents.data.takeWhile (fun c => c != '#'))

/-- An environment for the examples: the given matchers for every policy, the given
flags, discovered files and tree; a directory exists when the tree has it or the run
has created it, and no call of the operating system fails except the writes to the
path `failing`. -/
def exampleEnv (matchers : List KindMatcher) (output : String) (dryrun : Bool)
    (policies libraries : List File) (tree : FsNode) (failing : String) : Env where
  getRegoWithoutComments := exampleStrip
  GetKindFromPath := exampleKind
  GetMatchersFromComments := fun _ => ⟨matchers⟩
  contains := fun collection item => collection.contains item
  toLower := fun s => String.mk (s.data.map Char.toLower)
  GetFilesWithRule := fun _ _ => .ok policies
  GetFiles := fun _ => .ok libraries
  fsAt := fun _ => tree
  output := output
  dryrun := dryrun
  marshalTemplate := fun t =>
    .ok (t.Kind ++ " " ++ t.CRDKind ++ " " ++ ";".intercalate (t.Targets.flatMap (fun x => x.Libs)))
  marshalConstraint := fun _ => .ok "constraint"
  statNotExist := fun w path =>
    !((visibleDirs tree.name tree).map Prod.fst).contains path && !w.dirs.contains path
  mkdirAll := fun _ => none
  writeFile := fun path => if path = failing then some "disk full" else none

/-- A policy without imports. -/
def plainPolicy : File :=
  { FilePath := "root/policies/Plain/src.rego", Contents := "package plain # doc",
    PackageName := "plain", ImportPackages := [], Comments := [] }

/-- A policy that imports the packages `lib.a` and `lib.b`. -/
def twoImportPolicy : File :=
  { FilePath := "root/policies/Importing/src.rego", Contents := "package importing",
    PackageName := "importing", ImportPackages := ["lib.a", "lib.b"], Comments := [] }

/-- A library of package `lib.a`. -/
def libA : File :=
  { FilePath := "root/lib/a.rego", Contents := "package lib.a # first", PackageName := "lib.a",
    ImportPackages := [], Comments := [] }

/-- A second file of package `lib.a`. -/
def libA2 : File :=
  { FilePath := "root/lib/a_more.rego", Contents := "package lib.a # second", PackageName := "lib.a",
    ImportPackages := [], Comments := [] }

/-- A library of package `lib.b`. -/
def libB : File :=
  { FilePath := "root/lib/b.rego", Contents := "package lib.b # third", PackageName := "lib.b",
    ImportPackages := [], Comments := [] }

/-- A library of package `lib.c`. -/
def libC : File :=
  { FilePath := "root/lib/c.rego", Contents := "package lib.c # fourth", PackageName := "lib.c",
    ImportPackages := [], Comments := [] }

/-- A second file of package `lib.c`. -/
def libC2 : File :=
  { FilePath := "root/lib/c_more.rego", Contents := "package lib.c # fifth",
    PackageName := "lib.c", ImportPackages := [], Comments := [] }

/-- A tree with one library folder, `lib`. -/
def exampleTree : FsNode :=
  .dir "root" none [
    .dir "lib" none [.file "a.rego", .file "a_more.rego", .file "b.rego", .file "c.rego",
      .file "c_more.rego"],
    .dir "other" none [.dir "Plain" none [.file "src.rego"]],
    .dir "policies" none [
      .dir "Importing" none [.file "src.rego"],
      .dir "Plain" none [.file "src.rego"]]]

/-- A tree with two library folders, `lib` and `utils`, and a `.git` folder. -/
def twoLibraryTree : FsNode :=
  .dir "root" none [
    .dir ".git" none [.dir "libs" none []],
    .dir "lib" none [.file "a.rego"],
    .dir "policies" none [.dir "Plain" none [.file "src.rego"]],
    .dir "utils" none [.file "b.rego"]]

/-- A policy in another directory with the same base name as `plainPolicy`. -/
def plainTwin : File :=
  { FilePath := "root/other/Plain/src.rego", Contents := "package twin",
    PackageName := "twin", ImportPackages := [], Comments := [] }

/-- The state of a run that has created no directory and written no file yet. -/
def emptyWorld : World := { dirs := [], writes := [] }

/-! ## Lemmas -/

theorem foldl_append_single {α β : Type} (f : α → β) (l : List α) (init : List β) :
    l.foldl (fun acc x => acc ++ [f x]) init = init ++ l.map f := by
  induction l generalizing init with
  | nil => simp
  | cons x xs ih => simp [ih]

theorem collectKinds_eq (ms : List KindMatcher) : collectKinds ms = ms.map (fun m => m.Kind) := by
  unfold collectKinds
  rw [foldl_append_single]; simp

theorem inner_foldl_filter (imp : String) (libraries : List File) (init : List String) :
    libraries.foldl (fun libs library =>
        if imp = library.PackageName then libs ++ [library.Contents] else libs) init
      = init ++ (libraries.filter (fun l => imp = l.PackageName)).map (fun l => l.Contents) := by
  induction libraries generalizing init with
  | nil => simp
  | cons l ls ih =>
    by_cases h : imp = l.PackageName
    · rw [List.foldl_cons, if_pos h, ih, List.filter_cons_of_pos (by simpa using h)]
      simp
    · rw [List.foldl_cons, if_neg h, ih, List.filter_cons_of_neg (by simpa using h)]

theorem getMatchingLibraries_eq (policy : File) (libraries : List File) :
    getMatchingLibraries policy libraries
      = policy.ImportPackages.flatMap (fun imp =>
          (libraries.filter (fun l => imp = l.PackageName)).map (fun l => l.Contents)) := by
  unfold getMatchingLibraries
  suffices h : ∀ (imps : List String) (init : List String),
      imps.foldl (fun libs importPackage =>
        libraries.foldl (fun libs library =>
          if importPackage = library.PackageName then libs ++ [library.Contents] else libs) libs) init
      = init ++ imps.flatMap (fun imp =>
          (libraries.filter (fun l => imp = l.PackageName)).map (fun l => l.Contents)) by
    simpa using h policy.ImportPackages []
  intro imps
  induction imps with
  | nil => simp
  | cons i is ih =>
    intro init
    rw [List.foldl_cons, ih, inner_foldl_filter, List.flatMap_cons, List.append_assoc]

theorem exists_foldl (g : String) (acc : List String) (b : Bool) :
    acc.foldl (fun found addedGroup => if g = addedGroup then true else found) b
      = (b || decide (g ∈ acc)) := by
  induction acc generalizing b with
  | nil => simp
  | cons a as ih =>
    rw [List.foldl_cons, ih]
    by_cases h : g = a
    · simp [h]
    · simp [h]

theorem collectAPIGroups_aux (ms : List KindMatcher) (acc : List String) :
    ms.foldl
      (fun apiGroups kindMatcher =>
        let apiGroup := if kindMatcher.APIGroup = "core" then "" else kindMatcher.APIGroup
        let isAdded := apiGroups.foldl
          (fun found addedGroup => if apiGroup = addedGroup then true else found) false
        if !isAdded then apiGroups ++ [apiGroup] else apiGroups) acc
      = acc ++ (firstSeen (ms.map normGroup)).filter (fun y => decide (y ∉ acc)) := by
  induction ms generalizing acc with
  | nil => simp [firstSeen]
  | cons m ms ih =>
    rw [List.foldl_cons, ih]
    simp only [exists_foldl, Bool.false_or, List.map_cons, firstSeen]
    by_cases h : normGroup m ∈ acc
    · have h' : (if m.APIGroup = "core" then "" else m.APIGroup) ∈ acc := h
      simp only [h', decide_True, Bool.not_true, Bool.false_eq_true, if_false]
      rw [List.filter_cons_of_neg (by simpa using h), List.filter_filter]
      congr 1
      apply List.filter_congr
      intro y _
      by_cases hy : y ∈ acc
      · simp [hy]
      · have : y ≠ normGroup m := fun e => hy (e ▸ h)
        simp [hy, this]
    · have h' : (if m.APIGroup = "core" then "" else m.APIGroup) ∉ acc := h
      simp only [h', decide_False, Bool.not_false, if_true]
      rw [List.filter_cons_of_pos (by simpa using h), List.filter_filter, List.append_assoc]
      simp only [List.singleton_append]
      congr 2
      apply List.filter_congr
      intro y _
      simp only [List.mem_append, List.mem_singleton, not_or]
      have hn : (if m.APIGroup = "core" then "" else m.APIGroup) = normGroup m := rfl
      rw [hn]
      by_cases hy : y ∈ acc <;> by_cases hx : y = normGroup m <;> simp [hy, hx]

theorem collectAPIGroups_eq (ms : List KindMatcher) :
    collectAPIGroups ms = firstSeen (ms.map normGroup) := by
  unfold collectAPIGroups
  rw [collectAPIGroups_aux]; simp

theorem mem_firstSeen (l : List String) (g : String) : g ∈ firstSeen l ↔ g ∈ l := by
  induction l with
  | nil => simp [firstSeen]
  | cons x xs ih =>
    simp only [firstSeen, List.mem_cons, List.mem_filter, ih]
    by_cases h : g = x <;> simp [h]

theorem nodup_firstSeen (l : List String) : (firstSeen l).Nodup := by
  induction l with
  | nil => simp [firstSeen]
  | cons x xs ih =>
    simp only [firstSeen, List.nodup_cons, List.mem_filter]
    exact ⟨by simp, ih.filter _⟩

theorem pairwise_firstSeen (l : List String) :
    (firstSeen l).Pairwise (fun a b => l.indexOf a < l.indexOf b) := by
  induction l with
  | nil => simp [firstSeen]
  | cons x xs ih =>
    simp only [firstSeen, List.pairwise_cons, List.mem_filter]
    constructor
    · intro b hb
      have hne : b ≠ x := by simpa using hb.2
      rw [List.indexOf_cons_self, List.indexOf_cons_ne _ (Ne.symm hne)]
      exact Nat.succ_pos _
    · have h1 := ih.filter (fun y => y != x)
      refine List.Pairwise.imp_of_mem ?_ h1
      intro a b ha hb hab
      have hane : a ≠ x := by simpa using (List.mem_filter.mp ha).2
      have hbne : b ≠ x := by simpa using (List.mem_filter.mp hb).2
      rw [List.indexOf_cons_ne _ (Ne.symm hane), List.indexOf_cons_ne _ (Ne.symm hbne)]
      exact Nat.succ_lt_succ hab

theorem length_firstSeen (l : List String) : (firstSeen l).length = l.toFinset.card := by
  rw [← List.toFinset_card_of_nodup (nodup_firstSeen l)]
  congr 1
  ext g
  simp [mem_firstSeen]

theorem base_eq (name kind : String) :
    ((⟨[]⟩ : Unstructured).SetName name).SetGroupVersionKind
      "constraints.gatekeeper.sh" "v1beta1" kind = ⟨baseObject name kind⟩ := by
  by_cases h : name.length = 0
  · simp [Unstructured.SetName, Unstructured.SetGroupVersionKind, Unstructured.setNestedField,
      SetNestedField, setNestedFieldNoCopy, RemoveNestedField, mapGet, mapSet, baseObject, h]
    decide
  · simp [Unstructured.SetName, Unstructured.SetGroupVersionKind, Unstructured.setNestedField,
      SetNestedField, setNestedFieldNoCopy, RemoveNestedField, mapGet, mapSet, baseObject, h]
    decide

theorem getConstraint_eq (env : Env) (policy : File) :
    getConstraint env policy = .ok ⟨
      baseObject (env.toLower (env.GetKindFromPath policy.FilePath))
          (env.GetKindFromPath policy.FilePath)
        ++ (if env.dryrun = true ∨ (env.GetMatchersFromComments policy.Comments).KindMatchers.length ≠ 0
            then [("spec", Val.map (specEntries env.dryrun
              (env.GetMatchersFromComments policy.Comments).KindMatchers))] else [])⟩ := by
  unfold getConstraint
  simp only [base_eq]
  by_cases hn : (env.toLower (env.GetKindFromPath policy.FilePath)).length = 0 <;>
  by_cases hd : env.dryrun = true <;>
  by_cases hm : (env.GetMatchersFromComments policy.Comments).KindMatchers.length = 0 <;>
  simp [hn, hd, hm, baseObject, specEntries, matchBlock, SetNestedField, SetNestedSlice,
    setNestedFieldNoCopy, mapGet, mapSet]

theorem lastOr_append (s : String) (l1 l2 : List String) :
    lastOr s (l1 ++ l2) = lastOr (lastOr s l1) l2 := by
  unfold lastOr
  cases l2 using List.reverseRecOn with
  | nil => simp
  | append_singleton l a => simp [← List.append_assoc]

theorem lastOr_cons (s a : String) (l : List String) : lastOr s (a :: l) = lastOr a l := by
  have := lastOr_append s [a] l
  simpa [lastOr] using this

mutual
theorem walk_library (env : Env) : ∀ (t : FsNode) (path s : String),
    (walkable t = true ∧
      walk (libraryWalkFn env) path t s = (lastOr s (libraryDirs env path t), walkRetOf t)) ∨
    (walkable t = false ∧ ∃ s1 e, walk (libraryWalkFn env) path t s = (s1, WalkRet.err e))
  | .file name, path, s => by
    left
    simp [walkable, walk, libraryWalkFn, libraryDirs, visibleDirs, lastOr, walkRetOf]
  | .broken name e, path, s => by
    right
    simp [walkable, walk, libraryWalkFn]
  | .dir name readErr children, path, s => by
    cases readErr with
    | some e =>
      right
      simp [walkable, walk, libraryWalkFn]
    | none =>
      by_cases hgit : name = ".git"
      · left
        simp [walkable, walk, libraryWalkFn, libraryDirs, visibleDirs, lastOr, walkRetOf, hgit]
      · by_cases hc : env.contains libraryFolderNames name = true
        · rcases walkChildren_library env children path path with h | h
          · left
            simp [walkable, walk, libraryWalkFn, libraryDirs, visibleDirs, walkRetOf, hgit, hc,
              h.1, h.2, lastOr_cons, libraryDirsIn]
          · right
            obtain ⟨hw, s1, e, he⟩ := h
            simp [walkable, walk, libraryWalkFn, hgit, hc, hw, he]
        · rcases walkChildren_library env children path s with h | h
          · left
            simp [walkable, walk, libraryWalkFn, libraryDirs, visibleDirs, walkRetOf, hgit, hc,
              h.1, h.2, libraryDirsIn]
          · right
            obtain ⟨hw, s1, e, he⟩ := h
            simp [walkable, walk, libraryWalkFn, hgit, hc, hw, he]
theorem walkChildren_library (env : Env) : ∀ (ts : List FsNode) (path s : String),
    (walkableAll ts = true ∧
      walkChildren (libraryWalkFn env) path ts s
        = (lastOr s (libraryDirsIn env path ts), WalkRet.nil)) ∨
    (walkableAll ts = false ∧
      ∃ s1 e, walkChildren (libraryWalkFn env) path ts s = (s1, WalkRet.err e))
  | [], path, s => by
    left
    simp [walkableAll, walkChildren, libraryDirsIn, visibleDirsIn, lastOr]
  | .file name :: rest, path, s => by
    rcases walkChildren_library env rest path s with h | h
    · left
      simp [walkableAll, walkChildren, walk, libraryWalkFn, libraryDirsIn, visibleDirsIn, h.1]
      simpa [libraryDirsIn] using h.2
    · right
      obtain ⟨hw, s1, e, he⟩ := h
      simp [walkableAll, walkChildren, walk, libraryWalkFn, hw, he]
  | .broken name e :: rest, path, s => by
    right
    simp [walkableAll, walkChildren, libraryWalkFn]
  | .dir name readErr children :: rest, path, s => by
    rcases walk_library env (.dir name readErr children) (filepathJoin [path, name]) s with h | h
    · obtain ⟨hw, hwalk⟩ := h
      rcases walkChildren_library env rest path
          (lastOr s (libraryDirs env (filepathJoin [path, name]) (.dir name readErr children)))
        with h2 | h2
      · left
        refine ⟨by simp [walkableAll, hw, h2.1], ?_⟩
        rw [walkChildren, hwalk]
        have hret : (walkRetOf (.dir name readErr children) != WalkRet.nil &&
            walkRetOf (.dir name readErr children) != WalkRet.skipDir) = false := by
          unfold walkRetOf; split <;> simp
        simp only [hret, Bool.false_eq_true, if_false, h2.2]
        simp [libraryDirsIn, visibleDirsIn, libraryDirs, lastOr_append]
      · right
        obtain ⟨hw2, s1, e, he⟩ := h2
        refine ⟨by simp [walkableAll, hw, hw2], s1, e, ?_⟩
        rw [walkChildren, hwalk]
        have hret : (walkRetOf (.dir name readErr children) != WalkRet.nil &&
            walkRetOf (.dir name readErr children) != WalkRet.skipDir) = false := by
          unfold walkRetOf; split <;> simp
        simp only [hret, Bool.false_eq_true, if_false, he]
    · right
      obtain ⟨hw, s1, e, he⟩ := h
      refine ⟨by simp [walkableAll, hw], s1, e, ?_⟩
      rw [walkChildren, he]
      simp
end

theorem goodStack_nil (r : Bool) : GoodStack r [] := ⟨0, [], rfl, by simp, fun _ => rfl⟩

theorem goodStack_elem {r : Bool} {st : List (List Char)} (h : GoodStack r st) :
    ∀ c ∈ st, c ≠ [] ∧ '/' ∉ c := by
  obtain ⟨k, normal, rfl, hn, _⟩ := h
  intro c hc
  rcases List.mem_append.mp hc with hc | hc
  · have := List.eq_of_mem_replicate hc
    subst this
    exact ⟨by simp, by decide⟩
  · exact ⟨(hn c hc).1, (hn c hc).2.1⟩

theorem goodStack_push {r : Bool} {st : List (List Char)} (h : GoodStack r st) {c : List Char}
    (hc : PlainElem c) : GoodStack r (st ++ [c]) := by
  obtain ⟨k, normal, rfl, hn, hk⟩ := h
  refine ⟨k, normal ++ [c], by simp, ?_, hk⟩
  intro x hx
  rcases List.mem_append.mp hx with hx | hx
  · exact hn x hx
  · rw [List.mem_singleton.mp hx]; exact hc

theorem cleanStep_good {r : Bool} {st : List (List Char)} (h : GoodStack r st) {c : List Char}
    (hc : '/' ∉ c) : GoodStack r (cleanStep r st c) := by
  unfold cleanStep
  by_cases h1 : c = [] ∨ c = ['.']
  · rw [if_pos h1]; exact h
  · rw [if_neg h1]
    by_cases h2 : c = ['.', '.']
    · rw [if_pos h2]
      obtain ⟨k, normal, rfl, hn, hk⟩ := h
      rcases List.eq_nil_or_concat normal with hnil | ⟨n', x, hx⟩
      · subst hnil
        cases k with
        | zero =>
          simp only [List.replicate_zero, List.append_nil, List.getLast?_nil]
          cases r with
          | true => exact goodStack_nil _
          | false =>
            subst h2
            exact ⟨1, [], by simp, by simp, by simp⟩
        | succ k =>
          have hr : r = false := by
            cases r with
            | true => exact absurd (hk rfl) (by simp)
            | false => rfl
          subst hr
          subst h2
          have e1 : (List.replicate (k + 1) ['.', '.'] ++ ([] : List (List Char))).getLast?
              = some ['.', '.'] := by
            rw [List.append_nil, List.replicate_succ', List.getLast?_concat]
          rw [e1]
          simp only [if_true, Bool.false_eq_true, if_false]
          refine ⟨k + 2, [], ?_, by simp, by simp⟩
          simp [List.replicate_succ']
      · subst hx
        have hxp : PlainElem x := hn x (by simp)
        have hxd : x ≠ ['.', '.'] := hxp.2.2.2
        have e0 : List.replicate k ['.', '.'] ++ n'.concat x
            = (List.replicate k ['.', '.'] ++ n') ++ [x] := by simp
        rw [e0, List.getLast?_concat]
        simp only [if_neg hxd, List.dropLast_concat]
        refine ⟨k, n', rfl, ?_, hk⟩
        intro y hy
        exact hn y (by simp [hy])
    · rw [if_neg h2]
      refine goodStack_push h ⟨?_, hc, ?_, h2⟩
      · intro e; exact h1 (Or.inl e)
      · intro e; exact h1 (Or.inr e)

theorem foldl_cleanStep_good (r : Bool) (cs : List (List Char)) (st : List (List Char))
    (h : GoodStack r st) (hcs : ∀ c ∈ cs, '/' ∉ c) :
    GoodStack r (cs.foldl (cleanStep r) st) := by
  induction cs generalizing st with
  | nil => exact h
  | cons c cs ih =>
    rw [List.foldl_cons]
    exact ih _ (cleanStep_good h (hcs c (by simp))) (fun x hx => hcs x (by simp [hx]))

theorem splitOnP_no_sep (l : List Char) :
    ∀ c ∈ l.splitOnP (fun x => x == '/'), '/' ∉ c := by
  induction l with
  | nil => simp
  | cons a l ih =>
    rw [List.splitOnP_cons]
    by_cases ha : a = '/'
    · simp only [ha, beq_self_eq_true, if_true]
      intro c hc
      rcases List.mem_cons.mp hc with hc | hc
      · subst hc; simp
      · exact ih c hc
    · have : (a == '/') = false := by simpa using ha
      simp only [this, Bool.false_eq_true, if_false]
      intro c hc
      cases hs : List.splitOnP (fun x => x == '/') l with
      | nil => simp [hs, List.modifyHead] at hc
      | cons x xs =>
        rw [hs] at hc ih
        simp only [List.modifyHead, List.mem_cons] at hc
        rcases hc with hc | hc
        · subst hc
          have := ih x (by simp)
          simp only [List.mem_cons, not_or]
          exact ⟨fun e => ha e.symm, this⟩
        · exact ih c (by simp [hc])

theorem cleanChars_good (p : List Char) :
    ∃ st, cleanChars p = renderPath (p.head? == some '/') st ∧
      GoodStack (p.head? == some '/') st :=
  ⟨_, rfl, foldl_cleanStep_good _ _ _ (goodStack_nil _) (splitOnP_no_sep p)⟩

theorem foldl_cleanStep_dotdot (k j : Nat) :
    (List.replicate k ['.', '.']).foldl (cleanStep false) (List.replicate j ['.', '.'])
      = List.replicate (j + k) ['.', '.'] := by
  induction k generalizing j with
  | zero => simp
  | succ k ih =>
    rw [List.replicate_succ, List.foldl_cons]
    have hstep : cleanStep false (List.replicate j ['.', '.']) ['.', '.']
        = List.replicate (j + 1) ['.', '.'] := by
      unfold cleanStep
      cases j with
      | zero => simp
      | succ j =>
        rw [if_neg (by simp), if_pos rfl, List.replicate_succ', List.getLast?_concat]
        simp [List.replicate_succ']
    rw [hstep, ih]
    congr 1
    omega

theorem foldl_cleanStep_plain (r : Bool) (cs st : List (List Char))
    (hcs : ∀ c ∈ cs, PlainElem c) : cs.foldl (cleanStep r) st = st ++ cs := by
  induction cs generalizing st with
  | nil => simp
  | cons c cs ih =>
    have hc := hcs c (by simp)
    have hstep : cleanStep r st c = st ++ [c] := by
      unfold cleanStep
      rw [if_neg (by
        intro e
        rcases e with e | e
        · exact hc.1 e
        · exact hc.2.2.1 e), if_neg hc.2.2.2]
    rw [List.foldl_cons, hstep, ih _ (fun x hx => hcs x (by simp [hx]))]
    simp

theorem foldl_cleanStep_goodStack {r : Bool} {st : List (List Char)} (h : GoodStack r st) :
    st.foldl (cleanStep r) [] = st := by
  obtain ⟨k, normal, rfl, hn, hk⟩ := h
  rw [List.foldl_append]
  cases k with
  | zero => simp [foldl_cleanStep_plain r normal [] hn]
  | succ k =>
    have hr : r = false := by
      cases r with
      | true => exact absurd (hk rfl) (by simp)
      | false => rfl
    subst hr
    have := foldl_cleanStep_dotdot (k + 1) 0
    simp only [List.replicate_zero, Nat.zero_add] at this
    rw [this, foldl_cleanStep_plain false normal _ hn]

theorem intercalate_cons_cons (x y : List Char) (l : List (List Char)) :
    [ '/' ].intercalate (x :: y :: l) = x ++ '/' :: [ '/' ].intercalate (y :: l) := by
  simp [List.intercalate, List.intersperse]

theorem intercalate_concat (st : List (List Char)) (hst : st ≠ []) (n : List Char) :
    [ '/' ].intercalate (st ++ [n]) = [ '/' ].intercalate st ++ '/' :: n := by
  induction st with
  | nil => exact absurd rfl hst
  | cons x xs ih =>
    cases xs with
    | nil => simp [List.intercalate, List.intersperse]
    | cons y ys =>
      have := ih (by simp)
      rw [List.cons_append, List.cons_append, intercalate_cons_cons, ← List.cons_append, this,
        intercalate_cons_cons]
      simp

theorem head?_intercalate (st : List (List Char)) (hst : st ≠ [])
    (h : ∀ c ∈ st, c ≠ [] ∧ '/' ∉ c) : ([ '/' ].intercalate st).head? ≠ some '/' := by
  cases st with
  | nil => exact absurd rfl hst
  | cons x xs =>
    obtain ⟨hx, hs⟩ := h x (by simp)
    cases x with
    | nil => exact absurd rfl hx
    | cons a as =>
      have ha : a ≠ '/' := fun e => hs (by simp [e])
      cases xs with
      | nil => simpa [List.intercalate, List.intersperse] using ha
      | cons y ys =>
        rw [intercalate_cons_cons]
        simpa using ha

/-- Cleaning a cleaned path followed by one more plain element appends the element. -/
theorem cleanChars_render_concat {r : Bool} {st : List (List Char)} (h : GoodStack r st)
    {n : List Char} (hn : PlainElem n) :
    cleanChars (renderPath r st ++ '/' :: n) = renderPath r (st ++ [n]) := by
  have hgood := goodStack_push h hn
  have hfold := foldl_cleanStep_goodStack hgood
  have helem := goodStack_elem hgood
  have hsplit : ∀ ls : List (List Char), ls ≠ [] → (∀ l ∈ ls, '/' ∉ l) →
      List.splitOn '/' ([ '/' ].intercalate ls) = ls :=
    fun ls h1 h2 => List.splitOn_intercalate ls '/' h2 h1
  cases r with
  | true =>
    have hhead : (renderPath true st ++ '/' :: n).head? = some '/' := by simp [renderPath]
    unfold cleanChars
    rw [hhead]
    simp only [beq_self_eq_true]
    congr 1
    by_cases hst : st = []
    · subst hst
      have e : renderPath true [] ++ '/' :: n = [ '/' ].intercalate [[], [], n] := by
        simp [renderPath, List.intercalate, List.intersperse]
      rw [e, hsplit _ (by simp) (by
        intro l hl
        simp only [List.mem_cons, List.mem_singleton, List.not_mem_nil, or_false] at hl
        rcases hl with hl | hl | hl
        · subst hl; simp
        · subst hl; simp
        · subst hl; exact hn.2.1)]
      simp only [List.foldl_cons, List.nil_append] at hfold ⊢
      have e0 : cleanStep true [] [] = [] := by simp [cleanStep]
      rw [e0, e0]
      exact hfold
    · have e : renderPath true st ++ '/' :: n = [ '/' ].intercalate ([] :: (st ++ [n])) := by
        cases hs : st ++ [n] with
        | nil => simp at hs
        | cons y ys =>
          rw [intercalate_cons_cons, ← hs, intercalate_concat st hst]
          simp [renderPath]
      rw [e, hsplit _ (by simp) (by
        intro l hl
        rcases List.mem_cons.mp hl with hl | hl
        · subst hl; simp
        · exact (helem l hl).2)]
      rw [List.foldl_cons]
      have e0 : cleanStep true [] [] = [] := by simp [cleanStep]
      rw [e0]
      exact hfold
  | false =>
    by_cases hst : st = []
    · subst hst
      have e : renderPath false [] ++ '/' :: n = [ '/' ].intercalate [['.'], n] := by
        simp [renderPath, List.intercalate, List.intersperse]
      have hhead : (renderPath false [] ++ '/' :: n).head? = some '.' := by simp [renderPath]
      unfold cleanChars
      rw [hhead]
      have hb : (some '.' == some '/') = false := by decide
      rw [hb, e, hsplit _ (by simp) (by
        intro l hl
        simp only [List.mem_cons, List.mem_singleton, List.not_mem_nil, or_false] at hl
        rcases hl with hl | hl
        · subst hl; decide
        · subst hl; exact hn.2.1)]
      congr 1
    · have e : renderPath false st ++ '/' :: n = [ '/' ].intercalate (st ++ [n]) := by
        rw [intercalate_concat st hst]
        simp [renderPath, hst]
      have hhead : ((renderPath false st ++ '/' :: n).head? == some '/') = false := by
        rw [e]
        have := head?_intercalate (st ++ [n]) (by simp) helem
        simpa using this
      unfold cleanChars
      rw [hhead, e, hsplit _ (by simp) (fun l hl => (helem l hl).2)]
      congr 1

/-- Two cleaned paths with at least one element are equal only when they have the same
root and the same elements. -/
theorem renderPath_injective {r r' : Bool} {st st' : List (List Char)}
    (h : ∀ c ∈ st, c ≠ [] ∧ '/' ∉ c) (h' : ∀ c ∈ st', c ≠ [] ∧ '/' ∉ c)
    (hst : st ≠ []) (hst' : st' ≠ []) (e : renderPath r st = renderPath r' st') :
    r = r' ∧ st = st' := by
  have hinj : [ '/' ].intercalate st = [ '/' ].intercalate st' → st = st' := by
    intro e2
    have := congrArg (List.splitOn '/') e2
    rwa [List.splitOn_intercalate st '/' (fun l hl => (h l hl).2) hst,
      List.splitOn_intercalate st' '/' (fun l hl => (h' l hl).2) hst'] at this
  cases r <;> cases r'
  · simp only [renderPath, Bool.false_eq_true, if_false, hst, hst'] at e
    exact ⟨rfl, hinj e⟩
  · exfalso
    simp only [renderPath, Bool.false_eq_true, if_false, hst, if_true] at e
    have := head?_intercalate st hst h
    rw [e] at this
    simp at this
  · exfalso
    simp only [renderPath, Bool.false_eq_true, if_false, hst', if_true] at e
    have := head?_intercalate st' hst' h'
    rw [← e] at this
    simp at this
  · simp only [renderPath, if_true, List.cons.injEq, true_and] at e
    exact ⟨rfl, hinj e⟩

theorem renderPath_ne_nil {r : Bool} {st : List (List Char)} (h : GoodStack r st) :
    renderPath r st ≠ [] := by
  cases r with
  | true => simp [renderPath]
  | false =>
    by_cases hst : st = []
    · simp [renderPath, hst]
    · simp only [renderPath, Bool.false_eq_true, if_false, hst]
      intro e
      have := head?_intercalate st hst (goodStack_elem h)
      cases st with
      | nil => exact hst rfl
      | cons x xs =>
        obtain ⟨hx, _⟩ := goodStack_elem h x (by simp)
        cases xs with
        | nil =>
          simp [List.intercalate, List.intersperse] at e
          exact hx e
        | cons y ys =>
          rw [intercalate_cons_cons] at e
          simp at e

/-- The shape of what `filepath.Dir` returns. -/
theorem filepathDir_good (p : String) :
    ∃ r st, (filepathDir p).data = renderPath r st ∧ GoodStack r st := by
  obtain ⟨st, h1, h2⟩ := cleanChars_good (p.data.reverse.dropWhile (fun c => c != '/')).reverse
  exact ⟨_, st, h1, h2⟩

theorem filepathJoin_dir (p n : String) (hn : PlainElem n.data) :
    ∃ r st, (filepathDir p).data = renderPath r st ∧ GoodStack r st ∧
      (filepathJoin [filepathDir p, n]).data = renderPath r (st ++ [n.data]) := by
  obtain ⟨r, st, h1, h2⟩ := filepathDir_good p
  refine ⟨r, st, h1, h2, ?_⟩
  have hne : filepathDir p ≠ "" := by
    intro e
    have : (filepathDir p).data = [] := by rw [e]
    rw [h1] at this
    exact renderPath_ne_nil h2 this
  have hb : (filepathDir p == "") = false := by simpa using hne
  unfold filepathJoin
  simp only [List.dropWhile_cons, hb, Bool.false_eq_true, if_false]
  simp only [List.map_cons, List.map_nil]
  rw [intercalate_cons_cons]
  have : [ '/' ].intercalate [n.data] = n.data := by simp [List.intercalate, List.intersperse]
  rw [this, h1]
  exact cleanChars_render_concat h2 hn

/-- In the directory of a policy, a plain file name gives a path from which both the
directory and the name can be read back. -/
theorem filepathJoin_dir_injective (p q n m : String)
    (hn : PlainElem n.data) (hm : PlainElem m.data)
    (e : filepathJoin [filepathDir p, n] = filepathJoin [filepathDir q, m]) :
    filepathDir p = filepathDir q ∧ n = m := by
  obtain ⟨r, st, h1, h2, h3⟩ := filepathJoin_dir p n hn
  obtain ⟨r', st', h1', h2', h3'⟩ := filepathJoin_dir q m hm
  have e2 : renderPath r (st ++ [n.data]) = renderPath r' (st' ++ [m.data]) := by
    rw [← h3, ← h3', e]
  have := renderPath_injective (goodStack_elem (goodStack_push h2 hn))
    (goodStack_elem (goodStack_push h2' hm)) (by simp) (by simp) e2
  obtain ⟨hr, hs⟩ := this
  have hs2 := List.append_inj' hs rfl
  constructor
  · apply String.ext
    rw [h1, h1', hr, hs2.1]
  · apply String.ext
    simpa using hs2.2

theorem processPolicy_missing (env : Env) (libs : List File) (p : File) (w : World)
    (h : (getMatchingLibraries p libs).length ≠ p.ImportPackages.length) :
    processPolicy env libs p w = (some "missing imported libraries", w) := by
  unfold processPolicy
  simp [h]

theorem makeOutputDir_writes (env : Env) (d : String) (w : World) :
    (makeOutputDir env d w).2.writes = w.writes := by
  unfold makeOutputDir
  split
  · split <;> rfl
  · rfl

theorem writeTemplate_writes (env : Env) (p : File) (ml : List String) (d n : String) (w : World) :
    ((writeTemplate env p ml d n w).1 = none ∧
      ∃ tb, env.marshalTemplate (getConstraintTemplate env p ml) = .ok tb ∧
        (writeTemplate env p ml d n w).2.writes = w.writes ++ [(filepathJoin [d, n], tb)]) ∨
    ((writeTemplate env p ml d n w).1 ≠ none ∧ (writeTemplate env p ml d n w).2 = w) := by
  unfold writeTemplate
  simp only []
  split
  · right; simp
  · split
    · right; simp
    · left; exact ⟨rfl, _, by assumption, rfl⟩

theorem writeConstraint_writes (env : Env) (p : File) (d n : String) (w : World) :
    ((writeConstraint env p d n w).1 = none ∧
      ∃ c cb, getConstraint env p = .ok c ∧ env.marshalConstraint c = .ok cb ∧
        (writeConstraint env p d n w).2.writes = w.writes ++ [(filepathJoin [d, n], cb)]) ∨
    ((writeConstraint env p d n w).1 ≠ none ∧ (writeConstraint env p d n w).2 = w) := by
  unfold writeConstraint
  split
  · right; simp
  · split
    · right; simp
    · split
      · right; simp
      · left; exact ⟨rfl, _, _, by assumption, by assumption, rfl⟩

theorem processPolicy_writes (env : Env) (libs : List File) (p : File) (w : World) :
    ∃ extra, (processPolicy env libs p w).2.writes = w.writes ++ extra ∧
      extra.map Prod.fst <+: [templatePath env p, constraintPath env p] ∧
      ((processPolicy env libs p w).1 = none →
        (getMatchingLibraries p libs).length = p.ImportPackages.length ∧
        ∃ tb c cb,
          env.marshalTemplate (getConstraintTemplate env p (getMatchingLibraries p libs)) = .ok tb ∧
          getConstraint env p = .ok c ∧ env.marshalConstraint c = .ok cb ∧
          extra = [(templatePath env p, tb), (constraintPath env p, cb)]) := by
  unfold processPolicy templatePath constraintPath
  rcases hnames : outputNames env p with ⟨tn, cn, od⟩
  simp only []
  by_cases hlen : (getMatchingLibraries p libs).length = p.ImportPackages.length
  · simp only [hlen, ne_eq, not_true_eq_false, if_false]
    have hmk := makeOutputDir_writes env od w
    rcases hm : makeOutputDir env od w with ⟨e1, w1⟩
    rw [hm] at hmk
    cases e1 with
    | some e => exact ⟨[], by simpa using hmk, by simp, by simp⟩
    | none =>
      simp only []
      rcases writeTemplate_writes env p (getMatchingLibraries p libs) od tn w1 with ht | ht
      · obtain ⟨ht1, tb, htb, ht2⟩ := ht
        rcases hwt : writeTemplate env p (getMatchingLibraries p libs) od tn w1 with ⟨e2, w2⟩
        rw [hwt] at ht1 ht2
        simp only at ht1 ht2
        subst ht1
        simp only []
        rcases writeConstraint_writes env p od cn w2 with hc | hc
        · obtain ⟨hc1, c, cb, hcc, hcb, hc2⟩ := hc
          refine ⟨[(filepathJoin [od, tn], tb), (filepathJoin [od, cn], cb)], ?_, by simp, ?_⟩
          · rw [hc2, ht2]
            simp only at hmk
            rw [hmk]; simp
          · intro _
            exact ⟨trivial, tb, c, cb, htb, hcc, hcb, rfl⟩
        · obtain ⟨hc1, hc2⟩ := hc
          refine ⟨[(filepathJoin [od, tn], tb)], ?_, ?_, ?_⟩
          · rw [hc2, ht2]
            simp only at hmk
            rw [hmk]
          · simp only [List.map_cons, List.map_nil]
            exact ⟨[filepathJoin [od, cn]], rfl⟩
          · intro h; exact absurd h hc1
      · obtain ⟨ht1, ht2⟩ := ht
        rcases hwt : writeTemplate env p (getMatchingLibraries p libs) od tn w1 with ⟨e2, w2⟩
        rw [hwt] at ht1 ht2
        simp only at ht1 ht2
        cases e2 with
        | none => exact absurd rfl ht1
        | some e =>
          subst ht2
          exact ⟨[], by simpa using hmk, by simp, by simp⟩
  · simp only [hlen, ne_eq, not_false_eq_true, if_true]
    exact ⟨[], by simp, by simp, by simp⟩

theorem filter_package_missing (libs : List File) (i : String)
    (hmiss : ∀ l ∈ libs, l.PackageName ≠ i) :
    libs.filter (fun l => i = l.PackageName) = [] := by
  rw [List.filter_eq_nil_iff]
  intro x hx hx2
  have hx3 : i = x.PackageName := by simpa using hx2
  exact hmiss x hx hx3.symm

theorem matching_length_le (libs : List File) (imports : List String) (f : File → String)
    (hle : ∀ i ∈ imports, (libs.filter (fun l => i = l.PackageName)).length ≤ 1) :
    (imports.flatMap (fun imp =>
      (libs.filter (fun l => imp = l.PackageName)).map f)).length ≤ imports.length := by
  induction imports with
  | nil => simp
  | cons i is ih =>
    rw [List.flatMap_cons, List.length_append, List.length_map, List.length_cons]
    have h1 := hle i (by simp)
    have h2 := ih (fun j hj => hle j (by simp [hj]))
    omega

theorem matching_length_lt (libs : List File) (imports : List String) (f : File → String)
    (hle : ∀ i ∈ imports, (libs.filter (fun l => i = l.PackageName)).length ≤ 1)
    (hmiss : ∃ i ∈ imports, ∀ l ∈ libs, l.PackageName ≠ i) :
    (imports.flatMap (fun imp =>
      (libs.filter (fun l => imp = l.PackageName)).map f)).length < imports.length := by
  induction imports with
  | nil => obtain ⟨i, hi, _⟩ := hmiss; simp at hi
  | cons i is ih =>
    rw [List.flatMap_cons, List.length_append, List.length_map, List.length_cons]
    have hle2 : ∀ j ∈ is, (libs.filter (fun l => j = l.PackageName)).length ≤ 1 :=
      fun j hj => hle j (by simp [hj])
    obtain ⟨j, hj, hjm⟩ := hmiss
    rcases List.mem_cons.mp hj with hj | hj
    · subst hj
      rw [filter_package_missing libs j hjm]
      have := matching_length_le libs is f hle2
      simp only [List.length_nil]
      omega
    · have h1 := ih hle2 ⟨j, hj, hjm⟩
      have h2 := hle i (by simp)
      omega

theorem processPolicies_append (env : Env) (libs : List File) (pre rest : List File) (w : World) :
    processPolicies env libs (pre ++ rest) w =
      match processPolicies env libs pre w with
      | (some e, w1) => (some e, w1)
      | (none, w1) => processPolicies env libs rest w1 := by
  induction pre generalizing w with
  | nil => simp [processPolicies]
  | cons p pre ih =>
    simp only [List.cons_append, processPolicies]
    rcases processPolicy env libs p w with ⟨e, w1⟩
    cases e with
    | some e => rfl
    | none => exact ih w1

theorem processPolicies_ok_writes (env : Env) (libs : List File) (pre : List File) (w w1 : World)
    (h : processPolicies env libs pre w = (none, w1)) :
    w1.writes.map Prod.fst = w.writes.map Prod.fst ++
      pre.flatMap (fun q => [templatePath env q, constraintPath env q]) := by
  induction pre generalizing w with
  | nil =>
    simp only [processPolicies, Prod.mk.injEq, true_and] at h
    subst h; simp
  | cons p pre ih =>
    simp only [processPolicies] at h
    obtain ⟨extra, h1, _, h3⟩ := processPolicy_writes env libs p w
    rcases hp : processPolicy env libs p w with ⟨e, w2⟩
    rw [hp] at h h1 h3
    cases e with
    | some e => simp at h
    | none =>
      simp only at h h1 h3
      obtain ⟨_, tb, c, cb, _, _, _, hextra⟩ := h3 trivial
      rw [ih w2 h, h1, hextra]
      simp


theorem getConstraint_spec (env : Env) (policy : File) :
    ∃ c, getConstraint env policy = .ok c ∧
      nestedField c.Object ["spec", "enforcementAction"]
        = (if env.dryrun then some (Val.str "dryrun") else none) ∧
      nestedField c.Object ["spec", "match"]
        = (if (env.GetMatchersFromComments policy.Comments).KindMatchers = [] then none
           else some (Val.map [("kinds", Val.slice [Val.map
             (matchBlock (env.GetMatchersFromComments policy.Comments).KindMatchers)])])) ∧
      nestedField c.Object ["spec", "match", "kinds"]
        = (if (env.GetMatchersFromComments policy.Comments).KindMatchers = [] then none
           else some (Val.slice [Val.map
             (matchBlock (env.GetMatchersFromComments policy.Comments).KindMatchers)])) := by
  refine ⟨_, getConstraint_eq env policy, ?_, ?_, ?_⟩ <;>
  by_cases hn : (env.toLower (env.GetKindFromPath policy.FilePath)).length = 0 <;>
  by_cases hd : env.dryrun = true <;>
  by_cases hm : (env.GetMatchersFromComments policy.Comments).KindMatchers = [] <;>
  simp [hn, hd, hm, baseObject, specEntries, nestedField, mapGet, matchBlock]

theorem matchBlock_keys (ms : List KindMatcher) (k : String) :
    (mapGet (matchBlock ms) k).isSome ↔ (k = "apiGroups" ∨ k = "kinds") := by
  unfold matchBlock mapGet mapGet mapGet
  by_cases h1 : "apiGroups" = k
  · simp [h1.symm]
  · by_cases h2 : "kinds" = k
    · simp [h1, h2.symm]
    · simp [h1, h2, Ne.symm h1, Ne.symm h2]


theorem makeOutputDir_ok (env : Env) (d : String) (w : World)
    (hdir : env.statNotExist w d = true → env.mkdirAll d = none) :
    ∃ w1, makeOutputDir env d w = (none, w1) ∧ w1.writes = w.writes := by
  unfold makeOutputDir
  by_cases h : env.statNotExist w d = true
  · rw [if_pos h, hdir h]
    exact ⟨_, rfl, rfl⟩
  · rw [if_neg h]
    exact ⟨_, rfl, rfl⟩

theorem processPolicy_template_written (env : Env) (libs : List File) (p : File) (w : World)
    (tb : String)
    (hcheck : (getMatchingLibraries p libs).length = p.ImportPackages.length)
    (hdir : env.statNotExist w (outputNames env p).2.2 = true →
      env.mkdirAll (outputNames env p).2.2 = none)
    (hmt : env.marshalTemplate (getConstraintTemplate env p (getMatchingLibraries p libs)) = .ok tb)
    (hwt : env.writeFile (templatePath env p) = none) :
    ∃ w2, w2.writes = w.writes ++ [(templatePath env p, tb)] ∧
      processPolicy env libs p w
        = writeConstraint env p (outputNames env p).2.2 (outputNames env p).2.1 w2 := by
  obtain ⟨w1, hmk, hw1⟩ := makeOutputDir_ok env _ w hdir
  unfold templatePath at hwt ⊢
  unfold processPolicy
  rcases hnames : outputNames env p with ⟨tn, cn, od⟩
  rw [hnames] at hmk hwt
  simp only [] at hmk hwt ⊢
  simp only [hcheck, ne_eq, not_true_eq_false, if_false, hmk]
  unfold writeTemplate
  simp only [hmt, hwt]
  exact ⟨_, by simp [hw1], rfl⟩

theorem writeConstraint_extend (env : Env) (p : File) (d n : String) (w : World) :
    ∃ rest, (writeConstraint env p d n w).2.writes = w.writes ++ rest := by
  rcases writeConstraint_writes env p d n w with h | h
  · obtain ⟨_, _, _, _, _, h2⟩ := h
    exact ⟨_, h2⟩
  · exact ⟨[], by rw [h.2]; simp⟩

theorem writeConstraint_ok (env : Env) (p : File) (d n : String) (w : World)
    (c : Unstructured) (cb : String)
    (hc : getConstraint env p = .ok c) (hmc : env.marshalConstraint c = .ok cb)
    (hwc : env.writeFile (filepathJoin [d, n]) = none) :
    writeConstraint env p d n w
      = (none, { w with writes := w.writes ++ [(filepathJoin [d, n], cb)] }) := by
  unfold writeConstraint
  simp only [hc, hmc, hwc]

theorem processPolicies_extend (env : Env) (libs : List File) (ps : List File) (w : World) :
    ∃ rest, (processPolicies env libs ps w).2.writes = w.writes ++ rest := by
  induction ps generalizing w with
  | nil => exact ⟨[], by simp [processPolicies]⟩
  | cons p ps ih =>
    obtain ⟨extra, h1, _, _⟩ := processPolicy_writes env libs p w
    simp only [processPolicies]
    rcases hp : processPolicy env libs p w with ⟨e, w2⟩
    rw [hp] at h1
    cases e with
    | some e => exact ⟨extra, h1⟩
    | none =>
      obtain ⟨rest, hr⟩ := ih w2
      refine ⟨extra ++ rest, ?_⟩
      simp only at h1 ⊢
      rw [hr, h1, List.append_assoc]

theorem processPolicies_paths (env : Env) (libs : List File) (ps : List File) (w : World) :
    ∃ extra, (processPolicies env libs ps w).2.writes = w.writes ++ extra ∧
      extra.map Prod.fst <+: ps.flatMap (fun q => [templatePath env q, constraintPath env q]) := by
  induction ps generalizing w with
  | nil => exact ⟨[], by simp [processPolicies], by simp⟩
  | cons p ps ih =>
    obtain ⟨extra, h1, h2, h3⟩ := processPolicy_writes env libs p w
    simp only [processPolicies]
    rcases hp : processPolicy env libs p w with ⟨e, w2⟩
    rw [hp] at h1 h3
    cases e with
    | some e =>
      refine ⟨extra, h1, ?_⟩
      rw [List.flatMap_cons]
      exact h2.trans (List.prefix_append _ _)
    | none =>
      obtain ⟨_, tb, c, cb, _, _, _, hextra⟩ := h3 rfl
      obtain ⟨rest, hr1, hr2⟩ := ih w2
      refine ⟨extra ++ rest, ?_, ?_⟩
      · simp only at h1 ⊢
        rw [hr1, h1, List.append_assoc]
      · rw [List.flatMap_cons, List.map_append, hextra]
        simp only [List.map_cons, List.map_nil]
        exact (List.prefix_append_right_inj _).mpr hr2

theorem getMatchingLibraries_strip (env : Env) (p : File) (libraries : List File) :
    getMatchingLibraries p (stripLibraries env libraries)
      = p.ImportPackages.flatMap (fun importPackage =>
        (libraries.filter (fun l => importPackage = l.PackageName)).map
          (fun l => env.getRegoWithoutComments l.Contents)) := by
  rw [getMatchingLibraries_eq]
  congr 1
  funext importPackage
  simp only [stripLibraries, List.filter_map, List.map_map]
  rfl

/-! ## The properties -/

/-- C1: the resolution check of `runCreateCommand` compares only two lengths. For a policy
with the imports `lib.a` and `lib.b` and two library files that both declare `lib.a`,
package `lib.b` matches no library and `lib.a` matches two, yet the lengths agree and
the run ends without the error "missing imported libraries". -/
theorem resolution_check_misses_masked_import :
    "lib.b" ∈ twoImportPolicy.ImportPackages ∧
    (∀ l ∈ [libA, libA2], l.PackageName ≠ "lib.b") ∧
    (getMatchingLibraries twoImportPolicy [libA, libA2]).length
      = twoImportPolicy.ImportPackages.length ∧
    runCreateCommand (exampleEnv [] "" false [twoImportPolicy] [libA, libA2] exampleTree "")
        "root" emptyWorld
      = (none,
          { dirs := [],
            writes := [("root/policies/Importing/template.yaml",
                "ConstraintTemplate Importing package lib.a ;package lib.a "),
              ("root/policies/Importing/constraint.yaml", "constraint")] }) :=
  ⟨by decide, by decide, by decide, by rfl⟩

/-- C2, as stated, fails: in a tree whose root holds the folders `lib` and `utils`, the
first library folder of the walk is `root/lib`, but `getLibraryPath` returns
`root/utils`. -/
theorem getLibraryPath_not_first_match :
    (libraryDirs (exampleEnv [] "" false [] [] twoLibraryTree "") "root" twoLibraryTree).head?
      = some "root/lib" ∧
    getLibraryPath (exampleEnv [] "" false [] [] twoLibraryTree "") "root"
      = .ok "root/utils" :=
  ⟨by rfl, by rfl⟩

/-- C2, amended: when the walk meets no error, `getLibraryPath` returns the last directory
in traversal order, outside every skipped `.git` directory, whose name `contains`
finds among `lib`, `libs`, `util`, `utils` (the empty path when there is none); when
the walk meets an error, `getLibraryPath` returns an error. -/
theorem getLibraryPath_last_match (env : Env) (path : String) :
    (walkable (env.fsAt path) = true ∧
      getLibraryPath env path
        = .ok ((libraryDirs env path (env.fsAt path)).getLast?.getD "")) ∨
    (walkable (env.fsAt path) = false ∧ ∃ e, getLibraryPath env path = .error e) := by
  unfold getLibraryPath filepathWalk
  rcases walk_library env (env.fsAt path) path "" with h | h
  · left
    refine ⟨h.1, ?_⟩
    rw [h.2]
    cases hret : walkRetOf (env.fsAt path) with
    | nil => rfl
    | skipDir => rfl
    | err e =>
      exfalso
      unfold walkRetOf at hret
      split at hret
      · split at hret <;> simp at hret
      · simp at hret
  · right
    obtain ⟨hw, s1, e, he⟩ := h
    exact ⟨hw, e, by rw [he]⟩

/-- C3, as stated, fails: two matchers with the API groups `core` and the empty string
reference two distinct values, but the apiGroups list has the single entry `""`. -/
theorem apiGroups_core_and_empty_merge :
    (((exampleEnv [⟨"core", "Pod"⟩, ⟨"", "Service"⟩] "" false [] [] exampleTree
        "").GetMatchersFromComments plainPolicy.Comments).KindMatchers.map
          (fun m => m.APIGroup)).toFinset.card = 2 ∧
    ∃ (c : Unstructured) (blk : List (String × Val)) (groups : List String),
      getConstraint (exampleEnv [⟨"core", "Pod"⟩, ⟨"", "Service"⟩] "" false [] [] exampleTree "")
        plainPolicy = .ok c ∧
      nestedField c.Object ["spec", "match", "kinds"] = some (Val.slice [Val.map blk]) ∧
      mapGet blk "apiGroups" = some (Val.slice (groups.map Val.str)) ∧
      groups = [""] ∧ groups.length = 1 :=
  ⟨by decide, _, _, _, by rfl, by rfl, by rfl, by rfl, by rfl⟩

/-- C3, amended: for a policy with at least one matcher, the apiGroups list of the match
block built by `getConstraint` has one entry for every distinct API group once `core`
is read as the empty string, ordered by first occurrence among the matchers. -/
theorem getConstraint_apiGroups_first_seen (env : Env) (policy : File)
    (h : (env.GetMatchersFromComments policy.Comments).KindMatchers ≠ []) :
    ∃ (c : Unstructured) (blk : List (String × Val)) (groups : List String),
      getConstraint env policy = .ok c ∧
      nestedField c.Object ["spec", "match", "kinds"] = some (Val.slice [Val.map blk]) ∧
      mapGet blk "apiGroups" = some (Val.slice (groups.map Val.str)) ∧
      groups.length
        = (((env.GetMatchersFromComments policy.Comments).KindMatchers.map
            (fun m => if m.APIGroup = "core" then "" else m.APIGroup)).toFinset).card ∧
      (∀ g, g ∈ groups ↔
        g ∈ (env.GetMatchersFromComments policy.Comments).KindMatchers.map
          (fun m => if m.APIGroup = "core" then "" else m.APIGroup)) ∧
      groups.Pairwise (fun a b =>
        ((env.GetMatchersFromComments policy.Comments).KindMatchers.map
          (fun m => if m.APIGroup = "core" then "" else m.APIGroup)).indexOf a
        < ((env.GetMatchersFromComments policy.Comments).KindMatchers.map
          (fun m => if m.APIGroup = "core" then "" else m.APIGroup)).indexOf b) := by
  obtain ⟨c, hc, _, _, hk⟩ := getConstraint_spec env policy
  rw [if_neg h] at hk
  refine ⟨c, _, _, hc, hk, rfl, ?_, ?_, ?_⟩
  · rw [collectAPIGroups_eq]; exact length_firstSeen _
  · intro g; rw [collectAPIGroups_eq]; exact mem_firstSeen _ g
  · rw [collectAPIGroups_eq]; exact pairwise_firstSeen _

/-- C3, amended, at a policy with the matchers `core/Pod`, `apps/Deployment`, `/Service`
and `apps/StatefulSet`. -/
theorem getConstraint_apiGroups_first_seen_witness :
    ∃ (c : Unstructured) (blk : List (String × Val)) (groups : List String),
      getConstraint (exampleEnv [⟨"core", "Pod"⟩, ⟨"apps", "Deployment"⟩, ⟨"", "Service"⟩,
        ⟨"apps", "StatefulSet"⟩] "" false [] [] exampleTree "") plainPolicy = .ok c ∧
      nestedField c.Object ["spec", "match", "kinds"] = some (Val.slice [Val.map blk]) ∧
      mapGet blk "apiGroups" = some (Val.slice (groups.map Val.str)) ∧
      groups.length
        = ((([⟨"core", "Pod"⟩, ⟨"apps", "Deployment"⟩, ⟨"", "Service"⟩,
            ⟨"apps", "StatefulSet"⟩] : List KindMatcher).map
            (fun m => if m.APIGroup = "core" then "" else m.APIGroup)).toFinset).card ∧
      (∀ g, g ∈ groups ↔
        g ∈ ([⟨"core", "Pod"⟩, ⟨"apps", "Deployment"⟩, ⟨"", "Service"⟩,
            ⟨"apps", "StatefulSet"⟩] : List KindMatcher).map
          (fun m => if m.APIGroup = "core" then "" else m.APIGroup)) ∧
      groups.Pairwise (fun a b =>
        (([⟨"core", "Pod"⟩, ⟨"apps", "Deployment"⟩, ⟨"", "Service"⟩,
            ⟨"apps", "StatefulSet"⟩] : List KindMatcher).map
          (fun m => if m.APIGroup = "core" then "" else m.APIGroup)).indexOf a
        < (([⟨"core", "Pod"⟩, ⟨"apps", "Deployment"⟩, ⟨"", "Service"⟩,
            ⟨"apps", "StatefulSet"⟩] : List KindMatcher).map
          (fun m => if m.APIGroup = "core" then "" else m.APIGroup)).indexOf b) :=
  getConstraint_apiGroups_first_seen
    (exampleEnv [⟨"core", "Pod"⟩, ⟨"apps", "Deployment"⟩, ⟨"", "Service"⟩,
      ⟨"apps", "StatefulSet"⟩] "" false [] [] exampleTree "") plainPolicy (by decide)

/-- C5: for a policy with at least one matcher, the apiGroups list built by `getConstraint`
never contains `core`; it holds the empty string for every matcher of group `core`
and the group itself for every other matcher, nothing else, and no value twice. -/
theorem getConstraint_apiGroups_core (env : Env) (policy : File)
    (h : (env.GetMatchersFromComments policy.Comments).KindMatchers ≠ []) :
    ∃ (c : Unstructured) (blk : List (String × Val)) (groups : List String),
      getConstraint env policy = .ok c ∧
      nestedField c.Object ["spec", "match", "kinds"] = some (Val.slice [Val.map blk]) ∧
      mapGet blk "apiGroups" = some (Val.slice (groups.map Val.str)) ∧
      "core" ∉ groups ∧
      (∀ m ∈ (env.GetMatchersFromComments policy.Comments).KindMatchers,
        (m.APIGroup = "core" → "" ∈ groups) ∧ (m.APIGroup ≠ "core" → m.APIGroup ∈ groups)) ∧
      (∀ g ∈ groups, ∃ m ∈ (env.GetMatchersFromComments policy.Comments).KindMatchers,
        (m.APIGroup = "core" ∧ g = "") ∨ (m.APIGroup ≠ "core" ∧ g = m.APIGroup)) ∧
      groups.Nodup := by
  obtain ⟨c, hc, _, _, hk⟩ := getConstraint_spec env policy
  rw [if_neg h] at hk
  refine ⟨c, _, _, hc, hk, rfl, ?_, ?_, ?_, ?_⟩
  · rw [collectAPIGroups_eq, mem_firstSeen]
    intro hmem
    obtain ⟨m, _, hm⟩ := List.mem_map.mp hmem
    unfold normGroup at hm
    by_cases hcore : m.APIGroup = "core"
    · rw [if_pos hcore] at hm
      exact absurd hm (by decide)
    · rw [if_neg hcore] at hm
      exact hcore hm
  · intro m hm
    have hmem : normGroup m ∈
        collectAPIGroups (env.GetMatchersFromComments policy.Comments).KindMatchers := by
      rw [collectAPIGroups_eq, mem_firstSeen]
      exact List.mem_map_of_mem _ hm
    constructor
    · intro hcore
      simpa [normGroup, hcore] using hmem
    · intro hcore
      simpa [normGroup, hcore] using hmem
  · intro g hg
    rw [collectAPIGroups_eq, mem_firstSeen] at hg
    obtain ⟨m, hm, hmg⟩ := List.mem_map.mp hg
    refine ⟨m, hm, ?_⟩
    unfold normGroup at hmg
    by_cases hcore : m.APIGroup = "core"
    · rw [if_pos hcore] at hmg
      exact Or.inl ⟨hcore, hmg.symm⟩
    · rw [if_neg hcore] at hmg
      exact Or.inr ⟨hcore, hmg.symm⟩
  · rw [collectAPIGroups_eq]; exact nodup_firstSeen _

/-- C5 at a policy with the matchers `core/Pod`, `apps/Deployment` and `core/Service`. -/
theorem getConstraint_apiGroups_core_witness :
    ∃ (c : Unstructured) (blk : List (String × Val)) (groups : List String),
      getConstraint (exampleEnv [⟨"core", "Pod"⟩, ⟨"apps", "Deployment"⟩, ⟨"core", "Service"⟩]
        "" false [] [] exampleTree "") plainPolicy = .ok c ∧
      nestedField c.Object ["spec", "match", "kinds"] = some (Val.slice [Val.map blk]) ∧
      mapGet blk "apiGroups" = some (Val.slice (groups.map Val.str)) ∧
      "core" ∉ groups ∧
      (∀ m ∈ ([⟨"core", "Pod"⟩, ⟨"apps", "Deployment"⟩, ⟨"core", "Service"⟩] : List KindMatcher),
        (m.APIGroup = "core" → "" ∈ groups) ∧ (m.APIGroup ≠ "core" → m.APIGroup ∈ groups)) ∧
      (∀ g ∈ groups,
        ∃ m ∈ ([⟨"core", "Pod"⟩, ⟨"apps", "Deployment"⟩, ⟨"core", "Service"⟩] : List KindMatcher),
        (m.APIGroup = "core" ∧ g = "") ∨ (m.APIGroup ≠ "core" ∧ g = m.APIGroup)) ∧
      groups.Nodup :=
  getConstraint_apiGroups_core
    (exampleEnv [⟨"core", "Pod"⟩, ⟨"apps", "Deployment"⟩, ⟨"core", "Service"⟩]
      "" false [] [] exampleTree "") plainPolicy (by decide)

/-- C6: for a policy with at least one matcher, the kinds list of the match block built by
`getConstraint` is the list of the kinds of the matchers, in matcher order, one
entry for each matcher, repeated kinds included. -/
theorem getConstraint_kinds (env : Env) (policy : File)
    (h : (env.GetMatchersFromComments policy.Comments).KindMatchers ≠ []) :
    ∃ (c : Unstructured) (blk : List (String × Val)) (kinds : List String),
      getConstraint env policy = .ok c ∧
      nestedField c.Object ["spec", "match", "kinds"] = some (Val.slice [Val.map blk]) ∧
      mapGet blk "kinds" = some (Val.slice (kinds.map Val.str)) ∧
      kinds = (env.GetMatchersFromComments policy.Comments).KindMatchers.map (fun m => m.Kind) ∧
      kinds.length = (env.GetMatchersFromComments policy.Comments).KindMatchers.length := by
  obtain ⟨c, hc, _, _, hk⟩ := getConstraint_spec env policy
  rw [if_neg h] at hk
  exact ⟨c, _, _, hc, hk, rfl, collectKinds_eq _, by rw [collectKinds_eq, List.length_map]⟩

/-- C6 at a policy with the matchers `core/Pod`, `apps/Pod` and `core/Pod`. -/
theorem getConstraint_kinds_witness :
    ∃ (c : Unstructured) (blk : List (String × Val)) (kinds : List String),
      getConstraint (exampleEnv [⟨"core", "Pod"⟩, ⟨"apps", "Pod"⟩, ⟨"core", "Pod"⟩]
        "" false [] [] exampleTree "") plainPolicy = .ok c ∧
      nestedField c.Object ["spec", "match", "kinds"] = some (Val.slice [Val.map blk]) ∧
      mapGet blk "kinds" = some (Val.slice (kinds.map Val.str)) ∧
      kinds = ([⟨"core", "Pod"⟩, ⟨"apps", "Pod"⟩, ⟨"core", "Pod"⟩] : List KindMatcher).map
        (fun m => m.Kind) ∧
      kinds.length = ([⟨"core", "Pod"⟩, ⟨"apps", "Pod"⟩, ⟨"core", "Pod"⟩] : List KindMatcher).length :=
  getConstraint_kinds
    (exampleEnv [⟨"core", "Pod"⟩, ⟨"apps", "Pod"⟩, ⟨"core", "Pod"⟩]
      "" false [] [] exampleTree "") plainPolicy (by decide)

/-- C7: for either value of the dryrun flag, `getConstraint` returns a constraint, and the
constraint has the entry `spec.match` exactly when the policy has a matcher: without
matchers it has no `spec.match` at all, with matchers `spec.match` holds only
`kinds`, a list of one block whose keys are `apiGroups` and `kinds`. -/
theorem getConstraint_match_block (env : Env) (policy : File) :
    ∃ c, getConstraint env policy = .ok c ∧
      ((nestedField c.Object ["spec", "match"]).isSome
        = !(env.GetMatchersFromComments policy.Comments).KindMatchers.isEmpty) ∧
      (if (env.GetMatchersFromComments policy.Comments).KindMatchers = [] then
          nestedField c.Object ["spec", "match"] = none
        else
          ∃ blk,
            nestedField c.Object ["spec", "match"]
              = some (Val.map [("kinds", Val.slice [Val.map blk])]) ∧
            nestedField c.Object ["spec", "match", "kinds"]
              = some (Val.slice [Val.map blk]) ∧
            ∀ k, (mapGet blk k).isSome ↔ (k = "apiGroups" ∨ k = "kinds")) := by
  obtain ⟨c, hc, _, hm, hk⟩ := getConstraint_spec env policy
  refine ⟨c, hc, ?_, ?_⟩
  · rw [hm]
    by_cases h : (env.GetMatchersFromComments policy.Comments).KindMatchers = []
    · simp [h]
    · rw [if_neg h]
      cases hms : (env.GetMatchersFromComments policy.Comments).KindMatchers with
      | nil => exact absurd hms h
      | cons m ms => rfl
  · by_cases h : (env.GetMatchersFromComments policy.Comments).KindMatchers = []
    · rw [if_pos h, hm, if_pos h]
    · rw [if_neg h]
      rw [if_neg h] at hm hk
      exact ⟨_, hm, hk, matchBlock_keys _⟩

/-- C8: with the dryrun flag set, the constraint returned by `getConstraint` has
`spec.enforcementAction` equal to `dryrun`, with or without matchers; with the flag
unset it has no `spec.enforcementAction`. -/
theorem getConstraint_enforcementAction (env : Env) (policy : File) :
    ∃ c, getConstraint env policy = .ok c ∧
      nestedField c.Object ["spec", "enforcementAction"]
        = (if env.dryrun then some (Val.str "dryrun") else none) := by
  obtain ⟨c, hc, he, _, _⟩ := getConstraint_spec env policy
  exact ⟨c, hc, he⟩

/-- C4, as stated, fails. In a run over a policy without imports followed by a policy
with the undeclared package `lib.b` among its imports, the resolution error is returned
after the two files of the first policy have been written. With two library files of
package `lib.a`, the same missing package goes unnoticed and the run ends without an
error. When the write of the first template fails, the run returns that error
instead. -/
theorem run_keeps_earlier_files :
    runCreateCommand
        (exampleEnv [] "" false [plainPolicy, twoImportPolicy] [libA] exampleTree "")
        "root" emptyWorld
      = (some "missing imported libraries",
          { dirs := [],
            writes := [("root/policies/Plain/template.yaml", "ConstraintTemplate Plain "),
              ("root/policies/Plain/constraint.yaml", "constraint")] }) ∧
    (runCreateCommand
        (exampleEnv [] "" false [twoImportPolicy] [libA, libA2] exampleTree "")
        "root" emptyWorld).1 = none ∧
    runCreateCommand
        (exampleEnv [] "" false [plainPolicy, twoImportPolicy] [libA] exampleTree
          "root/policies/Plain/template.yaml")
        "root" emptyWorld
      = (some "writing template: disk full", { dirs := [], writes := [] }) :=
  ⟨by rfl, by rfl, by rfl⟩

/-- C4, amended: in a run, let `p` be a policy with an import that no library declares
and with no import that more than one library declares, and let the policies before
`p` be processed without error. Then the run returns "missing imported libraries",
and the files written during the run are the template and the constraint of each
policy before `p`, in order: none for `p`, none for a policy after `p`. -/
theorem run_stops_at_missing_import (env : Env) (path : String) (w w1 : World)
    (pre post : List File) (p : File) (libraryPath : String) (libraries : List File)
    (hpol : env.GetFilesWithRule path "violation" = .ok (pre ++ p :: post))
    (hpath : getLibraryPath env path = .ok libraryPath)
    (hlibs : env.GetFiles libraryPath = .ok libraries)
    (hle : ∀ i ∈ p.ImportPackages,
      (libraries.filter (fun l => i = l.PackageName)).length ≤ 1)
    (hmiss : ∃ i ∈ p.ImportPackages, ∀ l ∈ libraries, l.PackageName ≠ i)
    (hpre : processPolicies env (stripLibraries env libraries) pre w = (none, w1)) :
    runCreateCommand env path w = (some "missing imported libraries", w1) ∧
    w1.writes.map Prod.fst
      = w.writes.map Prod.fst
        ++ pre.flatMap (fun q => [templatePath env q, constraintPath env q]) := by
  refine ⟨?_, processPolicies_ok_writes env _ pre w w1 hpre⟩
  unfold runCreateCommand
  rw [hpol]
  simp only [hpath, hlibs]
  rw [processPolicies_append, hpre]
  simp only [processPolicies]
  have hcheck : (getMatchingLibraries p (stripLibraries env libraries)).length
      ≠ p.ImportPackages.length := by
    rw [getMatchingLibraries_strip]
    exact Nat.ne_of_lt (matching_length_lt libraries p.ImportPackages _ hle hmiss)
  rw [processPolicy_missing env _ p w1 hcheck]

/-- C4, amended, at the run over a policy without imports followed by a policy that needs
`lib.a` and `lib.b`, with the libraries `lib.a`, `lib.c` and `lib.c` again. -/
theorem run_stops_at_missing_import_witness :
    runCreateCommand
        (exampleEnv [] "" false [plainPolicy, twoImportPolicy] [libA, libC, libC2] exampleTree "")
        "root" emptyWorld
      = (some "missing imported libraries",
          { dirs := [],
            writes := [("root/policies/Plain/template.yaml", "ConstraintTemplate Plain "),
              ("root/policies/Plain/constraint.yaml", "constraint")] }) ∧
    ({ dirs := [],
       writes := [("root/policies/Plain/template.yaml", "ConstraintTemplate Plain "),
         ("root/policies/Plain/constraint.yaml", "constraint")] } : World).writes.map Prod.fst
      = emptyWorld.writes.map Prod.fst
        ++ [plainPolicy].flatMap (fun q =>
          [templatePath
              (exampleEnv [] "" false [plainPolicy, twoImportPolicy] [libA, libC, libC2]
                exampleTree "") q,
            constraintPath
              (exampleEnv [] "" false [plainPolicy, twoImportPolicy] [libA, libC, libC2]
                exampleTree "") q]) :=
  run_stops_at_missing_import
    (exampleEnv [] "" false [plainPolicy, twoImportPolicy] [libA, libC, libC2] exampleTree "")
    "root" emptyWorld _ [plainPolicy] [] twoImportPolicy "root/lib" [libA, libC, libC2]
    (by rfl) (by rfl) (by rfl) (by decide) ⟨"lib.b", by decide, by decide⟩ (by rfl)

/-- C9: in a run of `runCreateCommand`, let the policies before `p` be processed without
error and let the template of `p` be written (its resolution check passes, its output
directory exists or is created, the template is marshalled and the write succeeds).
Then the file the run writes next is the template file of `p`, holding the marshalled
template whose Libs list is the concatenation, over the imports of `p` in order, of
the comment-stripped contents of the libraries of that package, in library order;
every entry is the stripped contents of a library whose package `p` imports. This
holds whether or not the constraint of `p` is written afterwards. -/
theorem template_libs (env : Env) (path : String) (w w1 : World)
    (pre post : List File) (p : File) (libraryPath : String) (libraries : List File)
    (bytes : String)
    (hpol : env.GetFilesWithRule path "violation" = .ok (pre ++ p :: post))
    (hpath : getLibraryPath env path = .ok libraryPath)
    (hlibs : env.GetFiles libraryPath = .ok libraries)
    (hpre : processPolicies env (stripLibraries env libraries) pre w = (none, w1))
    (hcheck : (p.ImportPackages.flatMap (fun importPackage =>
        libraries.filter (fun l => importPackage = l.PackageName))).length
      = p.ImportPackages.length)
    (hdir : env.statNotExist w1 (outputNames env p).2.2 = true →
      env.mkdirAll (outputNames env p).2.2 = none)
    (hmarshal : env.marshalTemplate (getConstraintTemplate env p
        (p.ImportPackages.flatMap (fun importPackage =>
          (libraries.filter (fun l => importPackage = l.PackageName)).map
            (fun l => env.getRegoWithoutComments l.Contents)))) = .ok bytes)
    (hwrite : env.writeFile (templatePath env p) = none) :
    (∃ rest, (runCreateCommand env path w).2.writes
      = w1.writes ++ (templatePath env p, bytes) :: rest) ∧
    (getConstraintTemplate env p
        (p.ImportPackages.flatMap (fun importPackage =>
          (libraries.filter (fun l => importPackage = l.PackageName)).map
            (fun l => env.getRegoWithoutComments l.Contents)))).Targets.map (fun t => t.Libs)
      = [p.ImportPackages.flatMap (fun importPackage =>
          (libraries.filter (fun l => importPackage = l.PackageName)).map
            (fun l => env.getRegoWithoutComments l.Contents))] ∧
    ∀ lib ∈ p.ImportPackages.flatMap (fun importPackage =>
          (libraries.filter (fun l => importPackage = l.PackageName)).map
            (fun l => env.getRegoWithoutComments l.Contents)),
      ∃ l ∈ libraries,
        l.PackageName ∈ p.ImportPackages ∧ lib = env.getRegoWithoutComments l.Contents := by
  refine ⟨?_, rfl, ?_⟩
  · unfold runCreateCommand
    rw [hpol]
    simp only [hpath, hlibs]
    rw [processPolicies_append, hpre]
    simp only [processPolicies]
    have hcheck2 : (getMatchingLibraries p (stripLibraries env libraries)).length
        = p.ImportPackages.length := by
      rw [getMatchingLibraries_strip, ← hcheck]
      simp [List.length_flatMap, Function.comp_def]
    have hmt : env.marshalTemplate (getConstraintTemplate env p
        (getMatchingLibraries p (stripLibraries env libraries))) = .ok bytes := by
      rw [getMatchingLibraries_strip]; exact hmarshal
    obtain ⟨w2, hw2, hstep⟩ := processPolicy_template_written env
      (stripLibraries env libraries) p w1 bytes hcheck2 hdir hmt hwrite
    rw [hstep]
    obtain ⟨r1, hr1⟩ := writeConstraint_extend env p (outputNames env p).2.2
      (outputNames env p).2.1 w2
    rcases hwc : writeConstraint env p (outputNames env p).2.2 (outputNames env p).2.1 w2
      with ⟨e, w3⟩
    rw [hwc] at hr1
    simp only at hr1
    cases e with
    | some e =>
      refine ⟨r1, ?_⟩
      simp only
      rw [hr1, hw2]; simp
    | none =>
      obtain ⟨r2, hr2⟩ := processPolicies_extend env (stripLibraries env libraries) post w3
      refine ⟨r1 ++ r2, ?_⟩
      simp only
      rw [hr2, hr1, hw2]; simp
  · intro lib hlib
    obtain ⟨imp, himp, hmem⟩ := List.mem_flatMap.mp hlib
    obtain ⟨l, hl, hle⟩ := List.mem_map.mp hmem
    have hl2 := List.mem_filter.mp hl
    have hpk : imp = l.PackageName := by simpa using hl2.2
    exact ⟨l, hl2.1, hpk ▸ himp, hle.symm⟩

/-- C9 at a run over a policy without imports followed by a policy with the imports
`lib.a` and `lib.b`, the libraries listed as `lib.b`, `lib.a`, where the write of
the second constraint fails. -/
theorem template_libs_witness :
    (∃ rest,
      (runCreateCommand
        (exampleEnv [] "" false [plainPolicy, twoImportPolicy] [libB, libA] exampleTree
          "root/policies/Importing/constraint.yaml") "root" emptyWorld).2.writes
      = [("root/policies/Plain/template.yaml", "ConstraintTemplate Plain "),
          ("root/policies/Plain/constraint.yaml", "constraint")]
        ++ ("root/policies/Importing/template.yaml",
            "ConstraintTemplate Importing package lib.a ;package lib.b ") :: rest) ∧
    (getConstraintTemplate
        (exampleEnv [] "" false [plainPolicy, twoImportPolicy] [libB, libA] exampleTree
          "root/policies/Importing/constraint.yaml") twoImportPolicy
        ["package lib.a ", "package lib.b "]).Targets.map (fun t => t.Libs)
      = [["package lib.a ", "package lib.b "]] ∧
    ∀ lib ∈ ["package lib.a ", "package lib.b "],
      ∃ l ∈ [libB, libA],
        l.PackageName ∈ twoImportPolicy.ImportPackages ∧ lib = exampleStrip l.Contents :=
  template_libs
    (exampleEnv [] "" false [plainPolicy, twoImportPolicy] [libB, libA] exampleTree
      "root/policies/Importing/constraint.yaml")
    "root" emptyWorld
    { dirs := [],
      writes := [("root/policies/Plain/template.yaml", "ConstraintTemplate Plain "),
        ("root/policies/Plain/constraint.yaml", "constraint")] }
    [plainPolicy] [] twoImportPolicy "root/lib" [libB, libA]
    "ConstraintTemplate Importing package lib.a ;package lib.b "
    (by rfl) (by rfl) (by rfl) (by rfl) (by decide) (by decide) (by rfl) (by rfl)

/-- C10: in a run of `runCreateCommand`, let the policies before `p` be processed without
error and let both files of `p` be written (the resolution check passes, the output
directory exists or is created, both documents are marshalled and both writes
succeed). Then the two files the run writes next are the template and the constraint
of `p`, at these paths: with no output directory, `template.yaml` and
`constraint.yaml` joined to the directory of the policy file; with an output
directory, `template_<Kind>.yaml` and `constraint_<Kind>.yaml` joined to it, `Kind`
being `GetKindFromPath` of the policy path. Whatever fails, the paths the run writes
are, in order, an initial part of the paths of its policies. Hence without an
output directory two policies in different directories share no path, and with one
two policies of the same Kind have the same two paths. -/
theorem output_paths (env : Env) (path : String) (w w1 : World)
    (pre post : List File) (p q : File) (libraryPath : String) (libraries : List File)
    (tb cb : String) (c : Unstructured)
    (hpol : env.GetFilesWithRule path "violation" = .ok (pre ++ p :: post))
    (hpath : getLibraryPath env path = .ok libraryPath)
    (hlibs : env.GetFiles libraryPath = .ok libraries)
    (hpre : processPolicies env (stripLibraries env libraries) pre w = (none, w1))
    (hcheck : (p.ImportPackages.flatMap (fun importPackage =>
        libraries.filter (fun l => importPackage = l.PackageName))).length
      = p.ImportPackages.length)
    (hdir : env.statNotExist w1 (outputNames env p).2.2 = true →
      env.mkdirAll (outputNames env p).2.2 = none)
    (hmt : env.marshalTemplate (getConstraintTemplate env p
        (p.ImportPackages.flatMap (fun importPackage =>
          (libraries.filter (fun l => importPackage = l.PackageName)).map
            (fun l => env.getRegoWithoutComments l.Contents)))) = .ok tb)
    (hc : getConstraint env p = .ok c)
    (hmc : env.marshalConstraint c = .ok cb)
    (hwt : env.writeFile
      (if env.output = "" then filepathJoin [filepathDir p.FilePath, "template.yaml"]
        else filepathJoin [env.output, "template_" ++ env.GetKindFromPath p.FilePath ++ ".yaml"])
      = none)
    (hwc : env.writeFile
      (if env.output = "" then filepathJoin [filepathDir p.FilePath, "constraint.yaml"]
        else filepathJoin [env.output,
          "constraint_" ++ env.GetKindFromPath p.FilePath ++ ".yaml"])
      = none) :
    (∃ rest, (runCreateCommand env path w).2.writes
      = w1.writes
        ++ ((if env.output = "" then filepathJoin [filepathDir p.FilePath, "template.yaml"]
            else filepathJoin [env.output,
              "template_" ++ env.GetKindFromPath p.FilePath ++ ".yaml"]), tb)
        :: ((if env.output = "" then filepathJoin [filepathDir p.FilePath, "constraint.yaml"]
            else filepathJoin [env.output,
              "constraint_" ++ env.GetKindFromPath p.FilePath ++ ".yaml"]), cb)
        :: rest) ∧
    (∃ extra, (runCreateCommand env path w).2.writes = w.writes ++ extra ∧
      extra.map Prod.fst <+: (pre ++ p :: post).flatMap (fun r =>
        if env.output = "" then
          [filepathJoin [filepathDir r.FilePath, "template.yaml"],
            filepathJoin [filepathDir r.FilePath, "constraint.yaml"]]
        else
          [filepathJoin [env.output, "template_" ++ env.GetKindFromPath r.FilePath ++ ".yaml"],
            filepathJoin [env.output,
              "constraint_" ++ env.GetKindFromPath r.FilePath ++ ".yaml"]])) ∧
    (filepathDir p.FilePath ≠ filepathDir q.FilePath →
      ∀ a ∈ [filepathJoin [filepathDir p.FilePath, "template.yaml"],
          filepathJoin [filepathDir p.FilePath, "constraint.yaml"]],
        a ∉ [filepathJoin [filepathDir q.FilePath, "template.yaml"],
          filepathJoin [filepathDir q.FilePath, "constraint.yaml"]]) ∧
    (env.GetKindFromPath p.FilePath = env.GetKindFromPath q.FilePath →
      filepathJoin [env.output, "template_" ++ env.GetKindFromPath p.FilePath ++ ".yaml"]
        = filepathJoin [env.output, "template_" ++ env.GetKindFromPath q.FilePath ++ ".yaml"] ∧
      filepathJoin [env.output, "constraint_" ++ env.GetKindFromPath p.FilePath ++ ".yaml"]
        = filepathJoin [env.output,
            "constraint_" ++ env.GetKindFromPath q.FilePath ++ ".yaml"]) := by
  have htp : ∀ r : File, templatePath env r
      = (if env.output = "" then filepathJoin [filepathDir r.FilePath, "template.yaml"]
        else filepathJoin [env.output,
          "template_" ++ env.GetKindFromPath r.FilePath ++ ".yaml"]) := by
    intro r
    by_cases h : env.output = "" <;> simp [templatePath, outputNames, h]
  have hcp : ∀ r : File, constraintPath env r
      = (if env.output = "" then filepathJoin [filepathDir r.FilePath, "constraint.yaml"]
        else filepathJoin [env.output,
          "constraint_" ++ env.GetKindFromPath r.FilePath ++ ".yaml"]) := by
    intro r
    by_cases h : env.output = "" <;> simp [constraintPath, outputNames, h]
  have hrun : runCreateCommand env path w
      = processPolicies env (stripLibraries env libraries) (pre ++ p :: post) w := by
    unfold runCreateCommand
    rw [hpol]
    simp only [hpath, hlibs]
  refine ⟨?_, ?_, ?_, ?_⟩
  · rw [hrun, processPolicies_append, hpre]
    simp only [processPolicies]
    have hcheck2 : (getMatchingLibraries p (stripLibraries env libraries)).length
        = p.ImportPackages.length := by
      rw [getMatchingLibraries_strip, ← hcheck]
      simp [List.length_flatMap, Function.comp_def]
    have hmt2 : env.marshalTemplate (getConstraintTemplate env p
        (getMatchingLibraries p (stripLibraries env libraries))) = .ok tb := by
      rw [getMatchingLibraries_strip]; exact hmt
    rw [← htp p] at hwt ⊢
    rw [← hcp p] at hwc ⊢
    obtain ⟨w2, hw2, hstep⟩ := processPolicy_template_written env
      (stripLibraries env libraries) p w1 tb hcheck2 hdir hmt2 hwt
    rw [hstep, writeConstraint_ok env p _ _ w2 c cb hc hmc hwc]
    simp only
    obtain ⟨r2, hr2⟩ := processPolicies_extend env (stripLibraries env libraries) post
      { w2 with writes := w2.writes ++
        [(filepathJoin [(outputNames env p).2.2, (outputNames env p).2.1], cb)] }
    refine ⟨r2, ?_⟩
    rw [hr2]
    simp [hw2, constraintPath]
  · rw [hrun]
    obtain ⟨extra, h1, h2⟩ := processPolicies_paths env (stripLibraries env libraries)
      (pre ++ p :: post) w
    refine ⟨extra, h1, ?_⟩
    have hfun : (fun r : File => [templatePath env r, constraintPath env r])
        = (fun r : File =>
          if env.output = "" then
            [filepathJoin [filepathDir r.FilePath, "template.yaml"],
              filepathJoin [filepathDir r.FilePath, "constraint.yaml"]]
          else
            [filepathJoin [env.output,
                "template_" ++ env.GetKindFromPath r.FilePath ++ ".yaml"],
              filepathJoin [env.output,
                "constraint_" ++ env.GetKindFromPath r.FilePath ++ ".yaml"]]) := by
      funext r
      rw [htp r, hcp r]
      by_cases h : env.output = "" <;> simp [h]
    rw [← hfun]
    exact h2
  · intro hne a ha hb
    have ht : PlainElem "template.yaml".data := ⟨by decide, by decide, by decide, by decide⟩
    have hc : PlainElem "constraint.yaml".data := ⟨by decide, by decide, by decide, by decide⟩
    simp only [List.mem_cons, List.mem_singleton, List.not_mem_nil, or_false] at ha hb
    rcases ha with ha | ha <;> rcases hb with hb | hb
    · exact hne (filepathJoin_dir_injective _ _ _ _ ht ht (ha.symm.trans hb)).1
    · exact hne (filepathJoin_dir_injective _ _ _ _ ht hc (ha.symm.trans hb)).1
    · exact hne (filepathJoin_dir_injective _ _ _ _ hc ht (ha.symm.trans hb)).1
    · exact hne (filepathJoin_dir_injective _ _ _ _ hc hc (ha.symm.trans hb)).1
  · intro hk
    rw [hk]
    exact ⟨rfl, rfl⟩

/-- C10 at two runs over `plainPolicy` followed by `plainTwin`, policies of the same Kind
in different directories: without an output directory the four files are distinct,
with the output directory `out` the second policy writes to the paths of the first. -/
theorem output_paths_witness :
    ((∃ rest,
        (runCreateCommand (exampleEnv [] "" false [plainPolicy, plainTwin] [] exampleTree "")
          "root" emptyWorld).2.writes
        = [("root/policies/Plain/template.yaml", "ConstraintTemplate Plain "),
            ("root/policies/Plain/constraint.yaml", "constraint")]
          ++ ("root/other/Plain/template.yaml", "ConstraintTemplate Plain ")
          :: ("root/other/Plain/constraint.yaml", "constraint") :: rest) ∧
      ∀ a ∈ ["root/other/Plain/template.yaml", "root/other/Plain/constraint.yaml"],
        a ∉ ["root/policies/Plain/template.yaml", "root/policies/Plain/constraint.yaml"]) ∧
    ((∃ rest,
        (runCreateCommand (exampleEnv [] "out" false [plainPolicy, plainTwin] [] exampleTree "")
          "root" emptyWorld).2.writes
        = [("out/template_Plain.yaml", "ConstraintTemplate Plain "),
            ("out/constraint_Plain.yaml", "constraint")]
          ++ ("out/template_Plain.yaml", "ConstraintTemplate Plain ")
          :: ("out/constraint_Plain.yaml", "constraint") :: rest) ∧
      filepathJoin ["out", "template_" ++ exampleKind plainTwin.FilePath ++ ".yaml"]
        = filepathJoin ["out", "template_" ++ exampleKind plainPolicy.FilePath ++ ".yaml"] ∧
      filepathJoin ["out", "constraint_" ++ exampleKind plainTwin.FilePath ++ ".yaml"]
        = filepathJoin ["out", "constraint_" ++ exampleKind plainPolicy.FilePath ++ ".yaml"]) :=
  have colocated := output_paths
    (exampleEnv [] "" false [plainPolicy, plainTwin] [] exampleTree "") "root" emptyWorld
    { dirs := [],
      writes := [("root/policies/Plain/template.yaml", "ConstraintTemplate Plain "),
        ("root/policies/Plain/constraint.yaml", "constraint")] }
    [plainPolicy] [] plainTwin plainPolicy "root/lib" []
    "ConstraintTemplate Plain " "constraint"
    ⟨[("metadata", Val.map [("name", Val.str "plain")]),
      ("apiVersion", Val.str "constraints.gatekeeper.sh/v1beta1"),
      ("kind", Val.str "Plain")]⟩
    (by rfl) (by rfl) (by rfl) (by rfl) (by decide) (by decide) (by rfl) (by rfl) (by rfl)
    (by rfl) (by rfl)
  have flat := output_paths
    (exampleEnv [] "out" false [plainPolicy, plainTwin] [] exampleTree "") "root" emptyWorld
    { dirs := ["out"],
      writes := [("out/template_Plain.yaml", "ConstraintTemplate Plain "),
        ("out/constraint_Plain.yaml", "constraint")] }
    [plainPolicy] [] plainTwin plainPolicy "root/lib" []
    "ConstraintTemplate Plain " "constraint"
    ⟨[("metadata", Val.map [("name", Val.str "plain")]),
      ("apiVersion", Val.str "constraints.gatekeeper.sh/v1beta1"),
      ("kind", Val.str "Plain")]⟩
    (by rfl) (by rfl) (by rfl) (by rfl) (by decide) (by decide) (by rfl) (by rfl) (by rfl)
    (by rfl) (by rfl)
  ⟨⟨colocated.1, colocated.2.2.1 (by decide)⟩, flat.1, flat.2.2.2 (by rfl)⟩

end Konstraint
